import Mathlib

/-!
OpenGL-Raycaster: camera, collision and DDA raycasting core of `Main.cpp`

A shallow embedding of the numeric core of `Main.cpp` (`isWall`,
`mouse_callback`, and the movement, DDA and projection parts of
`renderScene`), followed by theorems about it.

Modelling conventions.

* `float`/`double` values are elements of an arbitrary linearly ordered field
  `α` with a floor function (`ℚ` for evaluation, `ℝ` where `cos`/`sin` are
  needed): arithmetic is exact, rounding is not modelled. A division by zero
  (which gives an infinity or a NaN in the source) is a `Fault` or `none`.
* `int` values are `Int`; `static_cast<int>(x)` / `int(x)` is truncation
  toward zero (`trunc`), and `/` on two `int`s is `Int.tdiv`. The conversion
  `int(screenHeight / perpWallDist)`, whose argument grows without bound as
  the distance shrinks, is checked against the 32-bit range `INT_MIN ..
  INT_MAX` and is `none` outside it (the source has no defined value there);
  the conversions of positions to cell indices are not range-checked.
* The global `map` becomes a `Grid` parameter whose reads are checked:
  `Grid.read` returns `none` outside `[0, width) × [0, height)`, which is how
  an out-of-bounds array access of the source shows up in the model.
* The unbounded `while (!hit)` loop runs on fuel: one unit per iteration.
* The constants `screenWidth`, `screenHeight` are parameters of the functions
  that use them, and are also given with the values of the source.
* The OpenGL calls, the mini-map and the bobbing offset (a `sin` added to both
  ends of every stripe after the clamps) are left out.
-/

namespace Raycaster

/-! ## Data model -/

/-- The `int map[MAP_WIDTH][MAP_HEIGHT]` array: `cell i j` is `map[i][j]`. -/
structure Grid where
  width : Nat
  height : Nat
  cell : Int → Int → Int

/-- Whether the index pair lies in `[0, width) × [0, height)`. -/
def Grid.inBounds (g : Grid) (i j : Int) : Prop :=
  0 ≤ i ∧ i < g.width ∧ 0 ≤ j ∧ j < g.height

instance (g : Grid) (i j : Int) : Decidable (g.inBounds i j) := by
  unfold Grid.inBounds; infer_instance

/-- The array access `map[i][j]`; `none` when the index pair is outside the array
(`cell` is consulted only inside the array). -/
def Grid.read (g : Grid) (i j : Int) : Option Int :=
  if g.inBounds i j then some (g.cell i j) else none

/-- Every border cell of the grid is a wall. -/
def Grid.Bordered (g : Grid) : Prop :=
  ∀ i j : Int, g.inBounds i j →
    (i = 0 ∨ i + 1 = g.width ∨ j = 0 ∨ j + 1 = g.height) → 0 < g.cell i j

/-- The index pair lies inside the grid and not on its border. -/
def Grid.interior (g : Grid) (i j : Int) : Prop :=
  1 ≤ i ∧ i + 1 < g.width ∧ 1 ≤ j ∧ j + 1 < g.height

/-- A grid given by its rows, as in the initialiser of `map`. -/
def Grid.ofRows (w h : Nat) (rows : List (List Int)) : Grid :=
  { width := w, height := h, cell := fun i j => (rows.getD i.toNat []).getD j.toNat 0 }

def MAP_WIDTH : Nat := 10
def MAP_HEIGHT : Nat := 10

/-- The built-in map of `Main.cpp`. -/
def map : Grid :=
  Grid.ofRows MAP_WIDTH MAP_HEIGHT
    [[1, 1, 1, 1, 1, 1, 1, 1, 1, 1],
     [1, 0, 0, 0, 0, 0, 0, 0, 0, 1],
     [1, 0, 1, 0, 1, 0, 1, 0, 0, 1],
     [1, 0, 1, 0, 1, 0, 1, 1, 0, 1],
     [1, 0, 0, 0, 0, 0, 1, 0, 0, 1],
     [1, 0, 1, 1, 1, 0, 1, 0, 0, 1],
     [1, 0, 0, 0, 1, 0, 1, 0, 0, 1],
     [1, 1, 1, 0, 1, 0, 1, 0, 0, 1],
     [1, 0, 0, 0, 0, 0, 0, 0, 0, 1],
     [1, 1, 1, 1, 1, 1, 1, 1, 1, 1]]

/-- A `w × h` grid whose border cells are walls (value `1`) and whose interior is empty. -/
def borderGrid (w h : Nat) : Grid :=
  { width := w, height := h,
    cell := fun i j => if i = 0 ∨ i + 1 = w ∨ j = 0 ∨ j + 1 = h then 1 else 0 }

/-- A `w × h` grid without any wall. -/
def openGrid (w h : Nat) : Grid := { width := w, height := h, cell := fun _ _ => 0 }

def screenWidth : Nat := 800
def screenHeight : Int := 600

/-- The `Camera` struct. -/
structure Camera (α : Type) where
  x : α
  y : α
  dirX : α
  dirY : α
  planeX : α
  planeY : α
  moveSpeed : α
  rotSpeed : α
  mouseSensitivity : α
  bobbingAmplitude : α
  bobbingFrequency : α
  bobbingTime : α

section Core

variable {α : Type} [LinearOrderedField α] [FloorRing α]

/-- The global `camera(5.0f, 5.0f, -1.0f, 0.01f, 0.1f, 0.66f, 0.01f, 0.01f, 0.001f, 0.1f, 2.0f)`;
the constructor sets `bobbingTime` to `0`. -/
def camera : Camera α :=
  { x := 5, y := 5, dirX := -1, dirY := 1 / 100, planeX := 1 / 10, planeY := 66 / 100,
    moveSpeed := 1 / 100, rotSpeed := 1 / 100, mouseSensitivity := 1 / 1000,
    bobbingAmplitude := 1 / 10, bobbingFrequency := 2, bobbingTime := 0 }

/-- Conversion `static_cast<int>(x)` / `int(x)`: truncation toward zero. -/
def trunc (x : α) : Int := if 0 ≤ x then ⌊x⌋ else ⌈x⌉

/-! ## `isWall` -/

/-- The function `isWall`. The result is `none` only if the array were read out of bounds. -/
def isWall (g : Grid) (x y : α) : Option Bool :=
  let mapX := trunc x
  let mapY := trunc y
  if mapX < 0 ∨ mapX ≥ g.width ∨ mapY < 0 ∨ mapY ≥ g.height then
    some false
  else
    (g.read mapX mapY).map (fun v => decide (v > 0))

/-! ## `mouse_callback` -/

/-- The function-local statics `lastX`, `lastY` of `mouse_callback`. -/
structure Mouse (α : Type) where
  lastX : α
  lastY : α

/-- Initial values of the statics: `screenWidth / 2.0` and `screenHeight / 2.0`. -/
def mouseInit : Mouse α := { lastX := 400, lastY := 300 }

/-- The function `mouse_callback`, with the library functions `cos` and `sin` as parameters. -/
def mouse_callback (cos sin : α → α) (cam : Camera α) (m : Mouse α) (xpos ypos : α) :
    Camera α × Mouse α :=
  let xoffset := xpos - m.lastX
  let yoffset := m.lastY - ypos
  let m1 : Mouse α := { lastX := xpos, lastY := ypos }
  let xoffset := xoffset * cam.mouseSensitivity
  let _yoffset := yoffset * cam.mouseSensitivity
  let oldDirX := cam.dirX
  let cam := { cam with dirX := cam.dirX * cos (-xoffset) - cam.dirY * sin (-xoffset) }
  let cam := { cam with dirY := oldDirX * sin (-xoffset) + cam.dirY * cos (-xoffset) }
  let oldPlaneX := cam.planeX
  let cam := { cam with planeX := cam.planeX * cos (-xoffset) - cam.planeY * sin (-xoffset) }
  let cam := { cam with planeY := oldPlaneX * sin (-xoffset) + cam.planeY * cos (-xoffset) }
  (cam, m1)

/-! ## Movement handling of `renderScene` -/

/-- The entries of `keys[]` that `renderScene` reads. -/
structure Keys where
  w : Bool
  s : Bool
  a : Bool
  d : Bool
  leftShift : Bool

/-- The two guarded updates inside one `if (keys[...])` block, for the candidate displacement
`(dx, dy)`; the blocks for `S` and `A` subtract, which is the displacement negated. -/
def moveAxes (g : Grid) (cam : Camera α) (dx dy : α) : Option (Camera α) := do
  let blockedX ← isWall g (cam.x + dx) cam.y
  let cam := if !blockedX then { cam with x := cam.x + dx } else cam
  let blockedY ← isWall g cam.x (cam.y + dy)
  let cam := if !blockedY then { cam with y := cam.y + dy } else cam
  pure cam

/-- One block `if (keys[k]) { ... }` of the movement code. -/
def keyBlock (g : Grid) (key : Bool) (cam : Camera α) (dx dy : α) : Option (Camera α) :=
  if key then moveAxes g cam dx dy else some cam

/-- The local `moveStep` of `renderScene`. -/
def moveStep (cam : Camera α) (keys : Keys) : α :=
  cam.moveSpeed * (if keys.leftShift then 2 else 1)

/-- Movement part of `renderScene` ("Handle movement based on key states" and
"Update bobbing time"): the blocks for `W`, `S`, `A`, `D` in this order. -/
def handleMovement (g : Grid) (keys : Keys) (cam : Camera α) : Option (Camera α) := do
  let moveStep := moveStep cam keys
  let cam ← keyBlock g keys.w cam (cam.dirX * moveStep) (cam.dirY * moveStep)
  let cam ← keyBlock g keys.s cam (-(cam.dirX * moveStep)) (-(cam.dirY * moveStep))
  let cam ← keyBlock g keys.a cam (-(cam.planeX * moveStep)) (-(cam.planeY * moveStep))
  let cam ← keyBlock g keys.d cam (cam.planeX * moveStep) (cam.planeY * moveStep)
  pure { cam with
    bobbingTime := cam.bobbingTime + cam.moveSpeed * (if keys.leftShift then 2 else 1) * (1 / 100) }

/-! ## Raycasting loop of `renderScene` -/

/-- Ways in which the raycast of a column leaves the model. -/
inductive Fault where
  /-- The read `map[mapX][mapY]` was outside the array. -/
  | outOfBounds
  /-- The loop `while (!hit)` was still running when the fuel ran out. -/
  | outOfFuel
  /-- The distance formula divided by a ray component equal to zero. -/
  | divByZero
  deriving DecidableEq, Repr

/-- The loop variables of the DDA: `mapX`, `mapY`, `sideDistX`, `sideDistY`, `side`. -/
structure DDAState (α : Type) where
  mapX : Int
  mapY : Int
  sideDistX : α
  sideDistY : α
  side : Int

/-- The ray of a column: direction, deltas, steps and the loop variables before the loop. -/
structure Ray (α : Type) where
  rayDirX : α
  rayDirY : α
  deltaDistX : α
  deltaDistY : α
  stepX : Int
  stepY : Int
  start : DDAState α

/-- The per-column result: distance, side, steps and hit cell. -/
structure RayHit (α : Type) where
  perpWallDist : α
  side : Int
  stepX : Int
  stepY : Int
  mapX : Int
  mapY : Int

/-- The local `cameraX = 2 * x / (float)screenWidth - 1`. -/
def cameraX (W x : Nat) : α := 2 * (x : α) / (W : α) - 1

/-- The expression `(rayDir == 0) ? 1e30f : std::abs(1.0f / rayDir)`. -/
def deltaDist (rayDir : α) : α := if rayDir = 0 then 10 ^ 30 else |1 / rayDir|

/-- The code from "Calculate ray position and direction" to the end of "Step and initial
sideDist". `side` is uninitialised there; it is assigned before it is read, here it starts
as `0`. -/
def setupRay (cam : Camera α) (W x : Nat) : Ray α :=
  let cameraX : α := cameraX W x
  let rayDirX := cam.dirX + cam.planeX * cameraX
  let rayDirY := cam.dirY + cam.planeY * cameraX
  let mapX := trunc cam.x
  let mapY := trunc cam.y
  let deltaDistX := deltaDist rayDirX
  let deltaDistY := deltaDist rayDirY
  let stepX : Int := if rayDirX < 0 then -1 else 1
  let sideDistX := if rayDirX < 0 then (cam.x - mapX) * deltaDistX
    else (mapX + 1 - cam.x) * deltaDistX
  let stepY : Int := if rayDirY < 0 then -1 else 1
  let sideDistY := if rayDirY < 0 then (cam.y - mapY) * deltaDistY
    else (mapY + 1 - cam.y) * deltaDistY
  { rayDirX := rayDirX, rayDirY := rayDirY, deltaDistX := deltaDistX, deltaDistY := deltaDistY,
    stepX := stepX, stepY := stepY,
    start := { mapX := mapX, mapY := mapY, sideDistX := sideDistX, sideDistY := sideDistY,
               side := 0 } }

/-- The "Jump to next map square" part of the loop body. -/
def ddaStep (r : Ray α) (s : DDAState α) : DDAState α :=
  if s.sideDistX < s.sideDistY then
    { s with sideDistX := s.sideDistX + r.deltaDistX, mapX := s.mapX + r.stepX, side := 0 }
  else
    { s with sideDistY := s.sideDistY + r.deltaDistY, mapY := s.mapY + r.stepY, side := 1 }

/-- The loop `while (!hit)`: each iteration jumps, then reads `map[mapX][mapY]`. -/
def ddaLoop (g : Grid) (r : Ray α) : Nat → DDAState α → Except Fault (DDAState α)
  | 0, _ => .error .outOfFuel
  | fuel + 1, s =>
    let s := ddaStep r s
    match g.read s.mapX s.mapY with
    | none => .error .outOfBounds
    | some v => if v > 0 then .ok s else ddaLoop g r fuel s

/-- The code of "Calculate distance of the wall from the camera". -/
def perpWallDist (cam : Camera α) (r : Ray α) (s : DDAState α) : Except Fault α :=
  if s.side = 0 then
    if r.rayDirX = 0 then .error .divByZero
    else .ok ((s.mapX - cam.x + ((1 - r.stepX).tdiv 2 : Int)) / r.rayDirX)
  else
    if r.rayDirY = 0 then .error .divByZero
    else .ok ((s.mapY - cam.y + ((1 - r.stepY).tdiv 2 : Int)) / r.rayDirY)

/-- The DDA of column `x`: setup and loop. -/
def dda (g : Grid) (cam : Camera α) (W x fuel : Nat) : Except Fault (DDAState α) :=
  ddaLoop g (setupRay cam W x) fuel (setupRay cam W x).start

/-- The raycast of column `x`, from the ray setup to `perpWallDist`. -/
def castColumn (g : Grid) (cam : Camera α) (W x fuel : Nat) : Except Fault (RayHit α) := do
  let r := setupRay cam W x
  let s ← ddaLoop g r fuel r.start
  let d ← perpWallDist cam r s
  pure { perpWallDist := d, side := s.side, stepX := r.stepX, stepY := r.stepY,
         mapX := s.mapX, mapY := s.mapY }

/-- How many further in-bounds cells the march can still enter from `s`: the cells left in
the step direction on each axis. -/
def room (g : Grid) (r : Ray α) (s : DDAState α) : Int :=
  (if r.stepX = 1 then (g.width : Int) - 1 - s.mapX else s.mapX) +
  (if r.stepY = 1 then (g.height : Int) - 1 - s.mapY else s.mapY)

/-! ## Projection of `renderScene` -/

/-- Smallest value of a 32-bit `int`. -/
def INT_MIN : Int := -2 ^ 31

/-- Largest value of a 32-bit `int`. -/
def INT_MAX : Int := 2 ^ 31 - 1

/-- The local `lineHeight = int(screenHeight / perpWallDist)`. It is `none` when the distance
is zero (the quotient is then not a number) and when the truncated quotient does not fit a
32-bit `int` (the conversion has no defined value then). -/
def lineHeight (H : Int) (perpWallDist : α) : Option Int :=
  if perpWallDist = 0 then none
  else
    let q := trunc ((H : α) / perpWallDist)
    if INT_MIN ≤ q ∧ q ≤ INT_MAX then some q else none

/-- The local `drawStart`, after its clamp. -/
def drawStart (H lineHeight : Int) : Int :=
  let drawStart := (-lineHeight).tdiv 2 + H.tdiv 2
  if drawStart < 0 then 0 else drawStart

/-- The local `drawEnd`, after its clamp. -/
def drawEnd (H lineHeight : Int) : Int :=
  let drawEnd := lineHeight.tdiv 2 + H.tdiv 2
  if drawEnd ≥ H then H - 1 else drawEnd

/-- One axis of a ray with a nonzero component: the step is the sign of the component and the
delta is the reciprocal of its magnitude. -/
def AxisOK (step : Int) (rayDir delta : α) : Prop :=
  (step = 1 ∧ 0 < rayDir ∧ delta * rayDir = 1) ∨ (step = -1 ∧ rayDir < 0 ∧ delta * rayDir = -1)

/-- Coordinate of the face of cell `m` through which a ray with this step leaves it. -/
def farFace (step : Int) (m : Int) : α := (m : α) + (if step = 1 then 1 else 0)

/-- The side distances are the ray parameters at which the ray leaves the current cell on
each axis, and on each axis the ray enters the cell before it leaves it on the other. -/
def Tracks (cam : Camera α) (r : Ray α) (s : DDAState α) : Prop :=
  cam.x + s.sideDistX * r.rayDirX = farFace r.stepX s.mapX ∧
  cam.y + s.sideDistY * r.rayDirY = farFace r.stepY s.mapY ∧
  s.sideDistX - r.deltaDistX ≤ s.sideDistY ∧
  s.sideDistY - r.deltaDistY ≤ s.sideDistX

/-- The ray parameter of the last crossing (on the axis named by `side`) lies between the
entry and the exit parameter of the other axis. -/
def Entered (r : Ray α) (s : DDAState α) : Prop :=
  (s.side = 0 ∧ s.sideDistY - r.deltaDistY ≤ s.sideDistX - r.deltaDistX ∧
    s.sideDistX - r.deltaDistX ≤ s.sideDistY) ∨
  (s.side = 1 ∧ s.sideDistX - r.deltaDistX ≤ s.sideDistY - r.deltaDistY ∧
    s.sideDistY - r.deltaDistY ≤ s.sideDistX)

/-- Values a `float` can hold, whatever the exponent: an integer of magnitude below `2^24`
times or over a power of two. -/
def IsFloat (q : α) : Prop :=
  ∃ (m : Int) (e : Nat), |m| < 2 ^ 24 ∧ (q = (m : α) * 2 ^ e ∨ q = (m : α) / 2 ^ e)

/-- Two cameras that differ at most in position and bobbing time. -/
def SameView (a b : Camera α) : Prop :=
  a.dirX = b.dirX ∧ a.dirY = b.dirY ∧ a.planeX = b.planeX ∧ a.planeY = b.planeY ∧
  a.moveSpeed = b.moveSpeed ∧ a.rotSpeed = b.rotSpeed ∧
  a.mouseSensitivity = b.mouseSensitivity ∧ a.bobbingAmplitude = b.bobbingAmplitude ∧
  a.bobbingFrequency = b.bobbingFrequency

/-! ## The program as a transition system -/

/-- The mutable program state the callbacks and the frame loop act on: the global `camera`
and the statics of `mouse_callback`. -/
structure World (α : Type) where
  camera : Camera α
  mouse : Mouse α

/-- What can happen to the state: a cursor-position callback, or a frame (`renderScene`)
with the key states it finds. -/
inductive Event (α : Type) where
  | cursor (xpos ypos : α)
  | frame (keys : Keys)

/-- The state at program start. -/
def World.init : World α := { camera := Raycaster.camera, mouse := mouseInit }

/-- The effect of one event on the state. -/
def World.step (cos sin : α → α) (g : Grid) (w : World α) : Event α → Option (World α)
  | .cursor xpos ypos =>
    let r := mouse_callback cos sin w.camera w.mouse xpos ypos
    some { camera := r.1, mouse := r.2 }
  | .frame keys => (handleMovement g keys w.camera).map (fun c => { w with camera := c })

/-- The effect of a sequence of events, oldest first. -/
def World.run (cos sin : α → α) (g : Grid) (w : World α) : List (Event α) → Option (World α)
  | [] => some w
  | e :: es => (w.step cos sin g e).bind (fun w1 => w1.run cos sin g es)

end Core

/-- A camera at `(4.5, 1.5)` looking along `(1, 1)`. -/
def strollCamera : Camera ℚ :=
  { (camera : Camera ℚ) with x := 9 / 2, y := 3 / 2, dirX := 1, dirY := 1 }

/-- A camera at `(1.5, 1.5)` whose ray for the single column of a 1-pixel screen is
`(1, 0.5)`. -/
def probeCamera : Camera ℚ :=
  { (camera : Camera ℚ) with
    x := 3 / 2, y := 3 / 2, dirX := 1, dirY := 1 / 2, planeX := 0, planeY := 0 }

/-- The loop variables when the march of `probeCamera` stops on the 4×4 border grid. -/
def probeStop : DDAState ℚ :=
  { mapX := 3, mapY := 2, sideDistX := 5 / 2, sideDistY := 3, side := 0 }

/-- The initial camera moved to `(1 + 2^-23, 5.5)`: in the empty cell `(1, 5)` of the
built-in map, one `float` step away from the wall cell `(0, 5)`. -/
def thinGapCamera : Camera ℚ :=
  { (camera : Camera ℚ) with x := 8388609 / 8388608, y := 11 / 2 }

/-- A camera standing at `(5.5, 5.5)`. -/
def corridorCamera (dirX dirY planeX planeY : ℚ) : Camera ℚ :=
  { (camera : Camera ℚ) with
    x := 11 / 2, y := 11 / 2, dirX := dirX, dirY := dirY, planeX := planeX, planeY := planeY }


/-! ## Basic facts about the embedding -/

section Lemmas

variable {α : Type} [LinearOrderedField α] [FloorRing α]

/-- For a non-negative argument, `trunc` is the floor. -/
theorem trunc_of_nonneg {x : α} (h : 0 ≤ x) : trunc x = ⌊x⌋ := by
  simp [trunc, h]

/-- The cast `trunc` rounds toward zero: the result lies between `0` and `x`, less than one
away from `x`. -/
theorem trunc_spec (x : α) :
    (0 ≤ x → 0 ≤ trunc x ∧ (trunc x : α) ≤ x ∧ x < trunc x + 1) ∧
    (x < 0 → trunc x ≤ 0 ∧ x ≤ (trunc x : α) ∧ (trunc x : α) < x + 1) := by
  constructor
  · intro h
    rw [trunc_of_nonneg h]
    exact ⟨Int.floor_nonneg.mpr h, Int.floor_le x, Int.lt_floor_add_one x⟩
  · intro h
    have e : trunc x = ⌈x⌉ := by simp [trunc, not_le.mpr h]
    rw [e]
    refine ⟨?_, Int.le_ceil x, Int.ceil_lt_add_one x⟩
    exact Int.ceil_le.mpr (by simpa using h.le)

/-- Truncating a value known to lie in `[n, n + 1)` with `0 ≤ n`. -/
theorem trunc_eq_of_mem {x : α} {n : Int} (h0 : 0 ≤ n) (h1 : (n : α) ≤ x) (h2 : x < n + 1) :
    trunc x = n := by
  have hx : (0 : α) ≤ x := le_trans (by exact_mod_cast h0) h1
  rw [trunc_of_nonneg hx]
  exact Int.floor_eq_iff.mpr ⟨h1, h2⟩

/-- The function `isWall` in closed form: it always returns, and the answer is `true` exactly
when the truncated cell is inside the grid and holds a positive value. -/
theorem isWall_eq (g : Grid) (x y : α) :
    isWall g x y =
      some (decide (g.inBounds (trunc x) (trunc y) ∧ g.cell (trunc x) (trunc y) > 0)) := by
  unfold isWall
  by_cases hb : g.inBounds (trunc x) (trunc y)
  · have hb2 := hb
    obtain ⟨h1, h2, h3, h4⟩ := hb2
    have hc : ¬ (trunc x < 0 ∨ trunc x ≥ g.width ∨ trunc y < 0 ∨ trunc y ≥ g.height) := by
      omega
    simp [hc, Grid.read, hb]
  · have hc : trunc x < 0 ∨ trunc x ≥ g.width ∨ trunc y < 0 ∨ trunc y ≥ g.height := by
      unfold Grid.inBounds at hb
      omega
    simp [hc, hb]

omit [FloorRing α] in
/-- One iteration of the loop, as an equation. -/
theorem ddaLoop_succ (g : Grid) (r : Ray α) (n : Nat) (s : DDAState α) :
    ddaLoop g r (n + 1) s =
      match g.read (ddaStep r s).mapX (ddaStep r s).mapY with
      | none => .error .outOfBounds
      | some v => if v > 0 then .ok (ddaStep r s) else ddaLoop g r n (ddaStep r s) := rfl

omit [FloorRing α] in
/-- More fuel does not change a run that ended without running out of fuel. -/
theorem ddaLoop_fuel_add (g : Grid) (r : Ray α) (n k : Nat) (s : DDAState α)
    (h : ddaLoop g r n s ≠ .error .outOfFuel) : ddaLoop g r (n + k) s = ddaLoop g r n s := by
  induction n generalizing s with
  | zero => simp [ddaLoop] at h
  | succ n ih =>
    rw [Nat.add_right_comm]
    simp only [ddaLoop] at h ⊢
    split
    · rfl
    · split
      · rfl
      · rename_i hv heq
        simp only [hv, if_neg heq] at h
        exact ih _ h

/-- A checked read returns a value exactly inside the bounds. -/
theorem Grid.read_some_iff (g : Grid) (i j : Int) (v : Int) :
    g.read i j = some v ↔ g.inBounds i j ∧ g.cell i j = v := by
  unfold Grid.read
  split <;> simp [*]

omit [FloorRing α] in
/-- A jump moves exactly one of the two map indices, by its step. -/
theorem ddaStep_cases (r : Ray α) (s : DDAState α) :
    ((ddaStep r s).mapX = s.mapX + r.stepX ∧ (ddaStep r s).mapY = s.mapY) ∨
    ((ddaStep r s).mapX = s.mapX ∧ (ddaStep r s).mapY = s.mapY + r.stepY) := by
  unfold ddaStep
  split
  · exact Or.inl ⟨rfl, rfl⟩
  · exact Or.inr ⟨rfl, rfl⟩

/-- The steps set up for a column are `1` or `-1`. -/
theorem setupRay_steps (cam : Camera α) (W x : Nat) :
    ((setupRay cam W x).stepX = 1 ∨ (setupRay cam W x).stepX = -1) ∧
    ((setupRay cam W x).stepY = 1 ∨ (setupRay cam W x).stepY = -1) := by
  unfold setupRay
  constructor
  · simp only
    split
    · exact Or.inr rfl
    · exact Or.inl rfl
  · simp only
    split
    · exact Or.inr rfl
    · exact Or.inl rfl

omit [FloorRing α] in
/-- From an in-bounds cell the loop ends, within `room + 1` iterations, on a wall cell or with
a read outside the grid. -/
theorem ddaLoop_ends_of_inBounds (g : Grid) (r : Ray α)
    (hx : r.stepX = 1 ∨ r.stepX = -1) (hy : r.stepY = 1 ∨ r.stepY = -1) (fuel : Nat) :
    ∀ s : DDAState α, g.inBounds s.mapX s.mapY → room g r s < fuel →
      ddaLoop g r fuel s = .error .outOfBounds ∨
      ∃ s1, ddaLoop g r fuel s = .ok s1 ∧ ∃ v, g.read s1.mapX s1.mapY = some v ∧ 0 < v := by
  induction fuel with
  | zero =>
    intro s hb hr
    exfalso
    obtain ⟨h1, h2, h3, h4⟩ := hb
    unfold room at hr
    split at hr <;> split at hr <;> omega
  | succ n ih =>
    intro s hb hr
    rw [ddaLoop_succ]
    cases hread : g.read (ddaStep r s).mapX (ddaStep r s).mapY with
    | none => exact Or.inl rfl
    | some v =>
      by_cases hv : v > 0
      · simp only [hv, if_true]
        exact Or.inr ⟨_, rfl, v, hread, hv⟩
      · simp only [hv, if_false]
        apply ih
        · exact ((Grid.read_some_iff g _ _ v).mp hread).1
        · obtain ⟨h1, h2, h3, h4⟩ := hb
          have hb1 := ((Grid.read_some_iff g _ _ v).mp hread).1
          obtain ⟨k1, k2, k3, k4⟩ := hb1
          unfold room at hr ⊢
          rcases ddaStep_cases r s with ⟨e1, e2⟩ | ⟨e1, e2⟩ <;> rw [e1, e2] at * <;>
            rcases hx with hx | hx <;> rcases hy with hy | hy <;>
            simp only [hx, hy] at * <;> norm_num at * <;> omega

omit [FloorRing α] in
/-- From any start, inside the grid or not, the loop ends within `max 1 (width + height)`
iterations, on a wall cell or with a read outside the grid. -/
theorem ddaLoop_ends (g : Grid) (r : Ray α)
    (hx : r.stepX = 1 ∨ r.stepX = -1) (hy : r.stepY = 1 ∨ r.stepY = -1) (k : Nat)
    (s : DDAState α) :
    ddaLoop g r (max 1 (g.width + g.height) + k) s = .error .outOfBounds ∨
    ∃ s1, ddaLoop g r (max 1 (g.width + g.height) + k) s = .ok s1 ∧
      ∃ v, g.read s1.mapX s1.mapY = some v ∧ 0 < v := by
  obtain ⟨n, hn⟩ : ∃ n, max 1 (g.width + g.height) + k = n + 1 :=
    ⟨max 1 (g.width + g.height) + k - 1, by omega⟩
  rw [hn, ddaLoop_succ]
  cases hread : g.read (ddaStep r s).mapX (ddaStep r s).mapY with
  | none => exact Or.inl rfl
  | some v =>
    by_cases hv : v > 0
    · simp only [hv, if_true]
      exact Or.inr ⟨_, rfl, v, hread, hv⟩
    · simp only [hv, if_false]
      have hb1 := ((Grid.read_some_iff g _ _ v).mp hread).1
      apply ddaLoop_ends_of_inBounds g r hx hy n _ hb1
      obtain ⟨k1, k2, k3, k4⟩ := hb1
      unfold room
      split <;> split <;> omega

omit [FloorRing α] in
/-- The jump taken when the x side distance is the smaller one. -/
theorem ddaStep_of_lt (r : Ray α) (s : DDAState α) (h : s.sideDistX < s.sideDistY) :
    ddaStep r s = { s with sideDistX := s.sideDistX + r.deltaDistX, mapX := s.mapX + r.stepX,
                           side := 0 } := by
  simp [ddaStep, h]

omit [FloorRing α] in
/-- The jump taken when the x side distance is not the smaller one. -/
theorem ddaStep_of_not_lt (r : Ray α) (s : DDAState α) (h : ¬ s.sideDistX < s.sideDistY) :
    ddaStep r s = { s with sideDistY := s.sideDistY + r.deltaDistY, mapY := s.mapY + r.stepY,
                           side := 1 } := by
  simp [ddaStep, h]

omit [FloorRing α] in
/-- A run of `n + 1` jumps along x: over `n` cells that are not walls onto a wall cell, while
the x side distance stays below the y side distance. -/
theorem ddaLoop_marchX (g : Grid) (r : Ray α) (hδ : 0 ≤ r.deltaDistX) (n : Nat) :
    ∀ (s : DDAState α) (k : Nat),
      (∀ j : Nat, 1 ≤ j → j ≤ n →
        ∃ v, g.read (s.mapX + (j : Int) * r.stepX) s.mapY = some v ∧ ¬ 0 < v) →
      (∃ v, g.read (s.mapX + ((n + 1 : Nat) : Int) * r.stepX) s.mapY = some v ∧ 0 < v) →
      s.sideDistX + (n : α) * r.deltaDistX < s.sideDistY →
      ddaLoop g r (n + 1 + k) s =
        .ok { mapX := s.mapX + ((n + 1 : Nat) : Int) * r.stepX, mapY := s.mapY,
              sideDistX := s.sideDistX + ((n + 1 : Nat) : α) * r.deltaDistX,
              sideDistY := s.sideDistY, side := 0 } := by
  induction n with
  | zero =>
    intro s k _ hwall hlt
    obtain ⟨v, hv, hpos⟩ := hwall
    have hlt0 : s.sideDistX < s.sideDistY := by simpa using hlt
    have e : 0 + 1 + k = k + 1 := by omega
    rw [e, ddaLoop_succ, ddaStep_of_lt r s hlt0]
    simp only [Nat.cast_one, one_mul, zero_add] at hv ⊢
    rw [hv]
    simp [hpos]
  | succ n ih =>
    intro s k hempty hwall hlt
    have hn : (0 : α) ≤ ((n + 1 : Nat) : α) * r.deltaDistX :=
      mul_nonneg (Nat.cast_nonneg _) hδ
    have hlt0 : s.sideDistX < s.sideDistY := lt_of_le_of_lt (by linarith) hlt
    obtain ⟨v1, hv1, hnot1⟩ := hempty 1 le_rfl (by omega)
    have e : n + 1 + 1 + k = (n + 1 + k) + 1 := by omega
    rw [e, ddaLoop_succ, ddaStep_of_lt r s hlt0]
    simp only [Nat.cast_one, one_mul] at hv1 ⊢
    rw [hv1]
    simp only [gt_iff_lt, hnot1, if_false]
    rw [ih]
    · simp only [Except.ok.injEq, DDAState.mk.injEq, and_true, true_and]
      constructor
      · push_cast; ring
      · push_cast; ring
    · intro j hj1 hjn
      obtain ⟨v, hv, hnot⟩ := hempty (j + 1) (by omega) (by omega)
      refine ⟨v, ?_, hnot⟩
      rw [← hv]
      congr 1
      push_cast; ring
    · obtain ⟨v, hv, hpos⟩ := hwall
      refine ⟨v, ?_, hpos⟩
      rw [← hv]
      congr 1
      push_cast; ring
    · simp only
      have : s.sideDistX + r.deltaDistX + (n : α) * r.deltaDistX
          = s.sideDistX + ((n + 1 : Nat) : α) * r.deltaDistX := by push_cast; ring
      rw [this]; exact hlt

omit [FloorRing α] in
/-- A run of `n + 1` jumps along y: over `n` cells that are not walls onto a wall cell, while
the y side distance stays at or below the x side distance. -/
theorem ddaLoop_marchY (g : Grid) (r : Ray α) (hδ : 0 ≤ r.deltaDistY) (n : Nat) :
    ∀ (s : DDAState α) (k : Nat),
      (∀ j : Nat, 1 ≤ j → j ≤ n →
        ∃ v, g.read s.mapX (s.mapY + (j : Int) * r.stepY) = some v ∧ ¬ 0 < v) →
      (∃ v, g.read s.mapX (s.mapY + ((n + 1 : Nat) : Int) * r.stepY) = some v ∧ 0 < v) →
      s.sideDistY + (n : α) * r.deltaDistY ≤ s.sideDistX →
      ddaLoop g r (n + 1 + k) s =
        .ok { mapX := s.mapX, mapY := s.mapY + ((n + 1 : Nat) : Int) * r.stepY,
              sideDistX := s.sideDistX,
              sideDistY := s.sideDistY + ((n + 1 : Nat) : α) * r.deltaDistY, side := 1 } := by
  induction n with
  | zero =>
    intro s k _ hwall hle
    obtain ⟨v, hv, hpos⟩ := hwall
    have hnlt : ¬ s.sideDistX < s.sideDistY := by
      have : s.sideDistY ≤ s.sideDistX := by simpa using hle
      exact not_lt.mpr this
    have e : 0 + 1 + k = k + 1 := by omega
    rw [e, ddaLoop_succ, ddaStep_of_not_lt r s hnlt]
    simp only [Nat.cast_one, one_mul, zero_add] at hv ⊢
    rw [hv]
    simp [hpos]
  | succ n ih =>
    intro s k hempty hwall hle
    have hn : (0 : α) ≤ ((n + 1 : Nat) : α) * r.deltaDistY :=
      mul_nonneg (Nat.cast_nonneg _) hδ
    have hnlt : ¬ s.sideDistX < s.sideDistY := not_lt.mpr (le_trans (by linarith) hle)
    obtain ⟨v1, hv1, hnot1⟩ := hempty 1 le_rfl (by omega)
    have e : n + 1 + 1 + k = (n + 1 + k) + 1 := by omega
    rw [e, ddaLoop_succ, ddaStep_of_not_lt r s hnlt]
    simp only [Nat.cast_one, one_mul] at hv1 ⊢
    rw [hv1]
    simp only [gt_iff_lt, hnot1, if_false]
    rw [ih]
    · simp only [Except.ok.injEq, DDAState.mk.injEq, and_true, true_and]
      constructor
      · push_cast; ring
      · push_cast; ring
    · intro j hj1 hjn
      obtain ⟨v, hv, hnot⟩ := hempty (j + 1) (by omega) (by omega)
      refine ⟨v, ?_, hnot⟩
      rw [← hv]
      congr 1
      push_cast; ring
    · obtain ⟨v, hv, hpos⟩ := hwall
      refine ⟨v, ?_, hpos⟩
      rw [← hv]
      congr 1
      push_cast; ring
    · simp only
      have : s.sideDistY + r.deltaDistY + (n : α) * r.deltaDistY
          = s.sideDistY + ((n + 1 : Nat) : α) * r.deltaDistY := by push_cast; ring
      rw [this]; exact hle

/-- More fuel does not change a march that ended without running out of fuel. -/
theorem dda_fuel_add (g : Grid) (cam : Camera α) (W x n k : Nat)
    (res : Except Fault (DDAState α)) (h : dda g cam W x n = res)
    (hres : res ≠ .error .outOfFuel) : dda g cam W x (n + k) = res := by
  unfold dda at h ⊢
  rw [ddaLoop_fuel_add g _ n k _ (by rw [h]; exact hres), h]

/-- More fuel does not change a column raycast that produced a hit. -/
theorem castColumn_fuel_add (g : Grid) (cam : Camera α) (W x n k : Nat) (hit : RayHit α)
    (h : castColumn g cam W x n = .ok hit) : castColumn g cam W x (n + k) = .ok hit := by
  unfold castColumn at h ⊢
  have hne : ddaLoop g (setupRay cam W x) n (setupRay cam W x).start ≠ .error .outOfFuel := by
    intro hc
    simp [hc, bind, Except.bind] at h
  simpa [ddaLoop_fuel_add g _ n k _ hne] using h

/-- The two guarded updates in closed form: the y-test is made at the x already committed. -/
theorem moveAxes_eq (g : Grid) (cam : Camera α) (dx dy : α) :
    moveAxes g cam dx dy = some
      (if g.inBounds (trunc (cam.x + dx)) (trunc cam.y) ∧
            g.cell (trunc (cam.x + dx)) (trunc cam.y) > 0 then
        (if g.inBounds (trunc cam.x) (trunc (cam.y + dy)) ∧
              g.cell (trunc cam.x) (trunc (cam.y + dy)) > 0 then cam
          else { cam with y := cam.y + dy })
      else
        (if g.inBounds (trunc (cam.x + dx)) (trunc (cam.y + dy)) ∧
              g.cell (trunc (cam.x + dx)) (trunc (cam.y + dy)) > 0 then
            { cam with x := cam.x + dx }
          else { cam with x := cam.x + dx, y := cam.y + dy })) := by
  simp only [moveAxes, isWall_eq, Option.bind_eq_bind, Option.some_bind, Option.pure_def]
  by_cases h1 : g.inBounds (trunc (cam.x + dx)) (trunc cam.y) ∧
      g.cell (trunc (cam.x + dx)) (trunc cam.y) > 0
  · by_cases h2 : g.inBounds (trunc cam.x) (trunc (cam.y + dy)) ∧
        g.cell (trunc cam.x) (trunc (cam.y + dy)) > 0
    · simp [h1, h2]
    · simp [h1, h2]
  · by_cases h2 : g.inBounds (trunc (cam.x + dx)) (trunc (cam.y + dy)) ∧
        g.cell (trunc (cam.x + dx)) (trunc (cam.y + dy)) > 0
    · simp [h1, h2]
    · simp [h1, h2]

omit [LinearOrderedField α] [FloorRing α] in
theorem SameView.refl (a : Camera α) : SameView a a :=
  ⟨rfl, rfl, rfl, rfl, rfl, rfl, rfl, rfl, rfl⟩

omit [LinearOrderedField α] [FloorRing α] in
theorem SameView.trans {a b c : Camera α} (h1 : SameView a b) (h2 : SameView b c) :
    SameView a c := by
  obtain ⟨a1, a2, a3, a4, a5, a6, a7, a8, a9⟩ := h1
  obtain ⟨b1, b2, b3, b4, b5, b6, b7, b8, b9⟩ := h2
  exact ⟨a1.trans b1, a2.trans b2, a3.trans b3, a4.trans b4, a5.trans b5, a6.trans b6,
    a7.trans b7, a8.trans b8, a9.trans b9⟩

/-- A movement block always returns, and changes at most the position. -/
theorem moveAxes_sameView (g : Grid) (cam : Camera α) (dx dy : α) :
    ∃ c, moveAxes g cam dx dy = some c ∧ SameView c cam := by
  refine ⟨_, moveAxes_eq g cam dx dy, ?_⟩
  split <;> split <;> exact ⟨rfl, rfl, rfl, rfl, rfl, rfl, rfl, rfl, rfl⟩

/-- A movement block under its key test always returns, and changes at most the position. -/
theorem keyBlock_sameView (g : Grid) (key : Bool) (cam : Camera α) (dx dy : α) :
    ∃ c, keyBlock g key cam dx dy = some c ∧ SameView c cam := by
  cases key
  · exact ⟨cam, rfl, SameView.refl cam⟩
  · simpa [keyBlock] using moveAxes_sameView g cam dx dy

/-- The movement handling of a frame always returns, and changes at most the position and
the bobbing time. -/
theorem handleMovement_sameView (g : Grid) (keys : Keys) (cam : Camera α) :
    ∃ c, handleMovement g keys cam = some c ∧ SameView c cam := by
  obtain ⟨c1, e1, v1⟩ := keyBlock_sameView g keys.w cam
    (cam.dirX * moveStep cam keys) (cam.dirY * moveStep cam keys)
  obtain ⟨c2, e2, v2⟩ := keyBlock_sameView g keys.s c1
    (-(c1.dirX * moveStep cam keys)) (-(c1.dirY * moveStep cam keys))
  obtain ⟨c3, e3, v3⟩ := keyBlock_sameView g keys.a c2
    (-(c2.planeX * moveStep cam keys)) (-(c2.planeY * moveStep cam keys))
  obtain ⟨c4, e4, v4⟩ := keyBlock_sameView g keys.d c3
    (c3.planeX * moveStep cam keys) (c3.planeY * moveStep cam keys)
  refine ⟨{ c4 with bobbingTime := c4.bobbingTime +
      c4.moveSpeed * (if keys.leftShift then 2 else 1) * (1 / 100) }, ?_, ?_⟩
  · simp only [handleMovement, Option.bind_eq_bind, e1, Option.some_bind, e2, e3, e4,
      Option.pure_def]
  · have v := (v4.trans v3).trans (v2.trans v1)
    obtain ⟨a1, a2, a3, a4, a5, a6, a7, a8, a9⟩ := v
    exact ⟨a1, a2, a3, a4, a5, a6, a7, a8, a9⟩

/-- For a non-negative height and a positive distance whose quotient stays below `2^31`,
`lineHeight` is the floor of the quotient. -/
theorem lineHeight_of_pos (H : Int) (hH : 0 ≤ H) (d : α) (hd : 0 < d)
    (hfit : (H : α) < 2 ^ 31 * d) : lineHeight H d = some ⌊(H : α) / d⌋ := by
  have hq : (0 : α) ≤ (H : α) / d := div_nonneg (by exact_mod_cast hH) hd.le
  have hlo : 0 ≤ ⌊(H : α) / d⌋ := Int.floor_nonneg.mpr hq
  have hhi : ⌊(H : α) / d⌋ < 2 ^ 31 := by
    have e : (((2 : Int) ^ 31 : Int) : α) = 2 ^ 31 := by norm_num
    apply Int.floor_lt.mpr
    rw [div_lt_iff₀ hd, e]
    exact hfit
  have hrange : INT_MIN ≤ ⌊(H : α) / d⌋ ∧ ⌊(H : α) / d⌋ ≤ INT_MAX := by
    unfold INT_MIN INT_MAX
    constructor <;> omega
  simp only [lineHeight, hd.ne', if_false, trunc_of_nonneg hq, hrange, and_self, if_true]

/-- A positive distance whose quotient reaches `2^31` has no line height. -/
theorem lineHeight_overflow (H : Int) (d : α) (hd : 0 < d) (hbig : 2 ^ 31 * d ≤ (H : α)) :
    lineHeight H d = none := by
  have hd0 : (0 : α) ≤ (2 : α) ^ 31 * d := by positivity
  have hq : (0 : α) ≤ (H : α) / d := div_nonneg (le_trans hd0 hbig) hd.le
  have hhi : (2 : Int) ^ 31 ≤ ⌊(H : α) / d⌋ := by
    have e : (((2 : Int) ^ 31 : Int) : α) = 2 ^ 31 := by norm_num
    apply Int.le_floor.mpr
    rw [le_div_iff₀ hd, e]
    exact hbig
  have hrange : ¬ (INT_MIN ≤ ⌊(H : α) / d⌋ ∧ ⌊(H : α) / d⌋ ≤ INT_MAX) := by
    unfold INT_MIN INT_MAX
    omega
  simp only [lineHeight, hd.ne', if_false, trunc_of_nonneg hq, hrange]

/-- The lower clamp of `drawStart` and the upper clamp of `drawEnd`, for any line height. -/
theorem draw_one_sided (l : Int) :
    0 ≤ drawStart screenHeight l ∧ drawEnd screenHeight l ≤ screenHeight - 1 := by
  unfold drawStart drawEnd screenHeight
  constructor
  · simp only
    split <;> omega
  · simp only
    split <;> omega

/-- For a non-negative line height the sides without a clamp are in range as well. -/
theorem draw_of_nonneg (l : Int) (hl : 0 ≤ l) :
    drawStart screenHeight l ≤ screenHeight - 1 ∧ 0 ≤ drawEnd screenHeight l := by
  have e1 : (-l).tdiv 2 = -(l / 2) := by
    rw [Int.neg_tdiv, Int.tdiv_eq_ediv hl (by norm_num)]
  have e2 : l.tdiv 2 = l / 2 := Int.tdiv_eq_ediv hl (by norm_num)
  have e3 : (600 : Int).tdiv 2 = 300 := by decide
  unfold drawStart drawEnd screenHeight
  simp only [e1, e2, e3]
  constructor
  · split <;> omega
  · split <;> omega

/-- For a positive distance whose quotient fits an `int`, the line height exists and both
ends of the stripe lie on the screen. -/
theorem stripe_on_screen (d : α) (hd : 0 < d) (hfit : (screenHeight : α) < 2 ^ 31 * d) :
    ∃ l : Int, lineHeight screenHeight d = some l ∧ 0 ≤ l ∧
      0 ≤ drawStart screenHeight l ∧ drawStart screenHeight l ≤ screenHeight - 1 ∧
      0 ≤ drawEnd screenHeight l ∧ drawEnd screenHeight l ≤ screenHeight - 1 := by
  have hq : (0 : α) ≤ (screenHeight : α) / d :=
    div_nonneg (by norm_num [screenHeight]) hd.le
  have hl : 0 ≤ ⌊(screenHeight : α) / d⌋ := Int.floor_nonneg.mpr hq
  exact ⟨_, lineHeight_of_pos screenHeight (by decide) d hd hfit, hl, (draw_one_sided _).1,
    (draw_of_nonneg _ hl).1, (draw_of_nonneg _ hl).2, (draw_one_sided _).2⟩

/-- The ray set up for a column whose ray direction is `(1, 0)`. -/
theorem setupRay_east (cam : Camera α) (W x : Nat)
    (hdx : cam.dirX + cam.planeX * cameraX W x = 1)
    (hdy : cam.dirY + cam.planeY * cameraX W x = 0) :
    setupRay cam W x =
      { rayDirX := 1, rayDirY := 0, deltaDistX := 1, deltaDistY := 10 ^ 30, stepX := 1,
        stepY := 1,
        start := { mapX := trunc cam.x, mapY := trunc cam.y,
                   sideDistX := (trunc cam.x : α) + 1 - cam.x,
                   sideDistY := ((trunc cam.y : α) + 1 - cam.y) * 10 ^ 30, side := 0 } } := by
  simp [setupRay, hdx, hdy, deltaDist]

/-- The ray set up for a column whose ray direction is `(-1, 0)`. -/
theorem setupRay_west (cam : Camera α) (W x : Nat)
    (hdx : cam.dirX + cam.planeX * cameraX W x = -1)
    (hdy : cam.dirY + cam.planeY * cameraX W x = 0) :
    setupRay cam W x =
      { rayDirX := -1, rayDirY := 0, deltaDistX := 1, deltaDistY := 10 ^ 30, stepX := -1,
        stepY := 1,
        start := { mapX := trunc cam.x, mapY := trunc cam.y,
                   sideDistX := cam.x - (trunc cam.x : α),
                   sideDistY := ((trunc cam.y : α) + 1 - cam.y) * 10 ^ 30, side := 0 } } := by
  simp [setupRay, hdx, hdy, deltaDist]

/-- The corridor along x, under the condition that the distance to the wall stays below the
y side distance built from the `1e30` delta. -/
theorem castColumn_corridorX (g : Grid) (cam : Camera α) (W x n k : Nat) (σ : Int)
    (hσ : σ = 1 ∨ σ = -1)
    (hdx : cam.dirX + cam.planeX * cameraX W x = (σ : α))
    (hdy : cam.dirY + cam.planeY * cameraX W x = 0)
    (hempty : ∀ j : Nat, 1 ≤ j → j ≤ n →
      ∃ v, g.read (trunc cam.x + (j : Int) * σ) (trunc cam.y) = some v ∧ ¬ 0 < v)
    (hwall : ∃ v, g.read (trunc cam.x + ((n + 1 : Nat) : Int) * σ) (trunc cam.y) = some v ∧
      0 < v)
    (hsent : (σ : α) * (((trunc cam.x + ((n + 1 : Nat) : Int) * σ
          + (if σ = 1 then 0 else 1) : Int) : α) - cam.x)
        < ((trunc cam.y : α) + 1 - cam.y) * 10 ^ 30) :
    castColumn g cam W x (n + 1 + k) =
      .ok { perpWallDist := (σ : α) * (((trunc cam.x + ((n + 1 : Nat) : Int) * σ
                + (if σ = 1 then 0 else 1) : Int) : α) - cam.x),
            side := 0, stepX := σ, stepY := 1,
            mapX := trunc cam.x + ((n + 1 : Nat) : Int) * σ, mapY := trunc cam.y } := by
  rcases hσ with rfl | rfl
  · have hr := setupRay_east cam W x (by simpa using hdx) hdy
    unfold castColumn
    simp only [hr]
    rw [ddaLoop_marchX g _ (by norm_num) n _ k hempty hwall]
    · simp only [perpWallDist, bind, Except.bind, pure, Except.pure]
      norm_num
    · simp only
      push_cast at hsent
      linarith
  · have hr := setupRay_west cam W x (by simpa using hdx) hdy
    unfold castColumn
    simp only [hr]
    rw [ddaLoop_marchX g _ (by norm_num) n _ k hempty hwall]
    · simp only [perpWallDist, bind, Except.bind, pure, Except.pure]
      norm_num
      ring
    · simp only
      push_cast at hsent
      norm_num at hsent
      linarith

/-- The ray set up for a column whose ray direction is `(0, 1)`. -/
theorem setupRay_north (cam : Camera α) (W x : Nat)
    (hdx : cam.dirX + cam.planeX * cameraX W x = 0)
    (hdy : cam.dirY + cam.planeY * cameraX W x = 1) :
    setupRay cam W x =
      { rayDirX := 0, rayDirY := 1, deltaDistX := 10 ^ 30, deltaDistY := 1, stepX := 1,
        stepY := 1,
        start := { mapX := trunc cam.x, mapY := trunc cam.y,
                   sideDistX := ((trunc cam.x : α) + 1 - cam.x) * 10 ^ 30,
                   sideDistY := (trunc cam.y : α) + 1 - cam.y, side := 0 } } := by
  simp [setupRay, hdx, hdy, deltaDist]

/-- The ray set up for a column whose ray direction is `(0, -1)`. -/
theorem setupRay_south (cam : Camera α) (W x : Nat)
    (hdx : cam.dirX + cam.planeX * cameraX W x = 0)
    (hdy : cam.dirY + cam.planeY * cameraX W x = -1) :
    setupRay cam W x =
      { rayDirX := 0, rayDirY := -1, deltaDistX := 10 ^ 30, deltaDistY := 1, stepX := 1,
        stepY := -1,
        start := { mapX := trunc cam.x, mapY := trunc cam.y,
                   sideDistX := ((trunc cam.x : α) + 1 - cam.x) * 10 ^ 30,
                   sideDistY := cam.y - (trunc cam.y : α), side := 0 } } := by
  simp [setupRay, hdx, hdy, deltaDist]

/-- The corridor along y, under the condition that the distance to the wall stays at or below
the x side distance built from the `1e30` delta. -/
theorem castColumn_corridorY (g : Grid) (cam : Camera α) (W x n k : Nat) (σ : Int)
    (hσ : σ = 1 ∨ σ = -1)
    (hdx : cam.dirX + cam.planeX * cameraX W x = 0)
    (hdy : cam.dirY + cam.planeY * cameraX W x = (σ : α))
    (hempty : ∀ j : Nat, 1 ≤ j → j ≤ n →
      ∃ v, g.read (trunc cam.x) (trunc cam.y + (j : Int) * σ) = some v ∧ ¬ 0 < v)
    (hwall : ∃ v, g.read (trunc cam.x) (trunc cam.y + ((n + 1 : Nat) : Int) * σ) = some v ∧
      0 < v)
    (hsent : (σ : α) * (((trunc cam.y + ((n + 1 : Nat) : Int) * σ
          + (if σ = 1 then 0 else 1) : Int) : α) - cam.y)
        ≤ ((trunc cam.x : α) + 1 - cam.x) * 10 ^ 30) :
    castColumn g cam W x (n + 1 + k) =
      .ok { perpWallDist := (σ : α) * (((trunc cam.y + ((n + 1 : Nat) : Int) * σ
                + (if σ = 1 then 0 else 1) : Int) : α) - cam.y),
            side := 1, stepX := 1, stepY := σ,
            mapX := trunc cam.x, mapY := trunc cam.y + ((n + 1 : Nat) : Int) * σ } := by
  rcases hσ with rfl | rfl
  · have hr := setupRay_north cam W x hdx (by simpa using hdy)
    unfold castColumn
    simp only [hr]
    rw [ddaLoop_marchY g _ (by norm_num) n _ k hempty hwall]
    · simp only [perpWallDist, bind, Except.bind, pure, Except.pure]
      norm_num
    · simp only
      push_cast at hsent
      linarith
  · have hr := setupRay_south cam W x hdx (by simpa using hdy)
    unfold castColumn
    simp only [hr]
    rw [ddaLoop_marchY g _ (by norm_num) n _ k hempty hwall]
    · simp only [perpWallDist, bind, Except.bind, pure, Except.pure]
      norm_num
      ring
    · simp only
      push_cast at hsent
      norm_num at hsent
      linarith

/-- A `float` is at least `2^-24` below the upper edge of its cell. -/
theorem gap_of_isFloat (y : α) (hy : IsFloat y) :
    (1 : α) / 2 ^ 24 ≤ (trunc y : α) + 1 - y := by
  have hsmall : (1 : α) / 2 ^ 24 ≤ 1 / 2 := by norm_num
  by_cases h0 : 0 ≤ y
  · rw [trunc_of_nonneg h0]
    obtain ⟨m, e, hm, hq | hq⟩ := hy
    · have hint : y = ((m * 2 ^ e : Int) : α) := by rw [hq]; push_cast; ring
      have hfl : ⌊y⌋ = m * 2 ^ e := by rw [hint]; exact Int.floor_intCast _
      rw [hfl, ← hint]
      have : (1 : α) / 2 ^ 24 ≤ 1 := by norm_num
      linarith
    · by_cases he : e ≤ 24
      · -- `y * 2^24` is an integer
        obtain ⟨T, hT⟩ : ∃ T : Int, T = 2 ^ 24 := ⟨_, rfl⟩
        have hTα : (T : α) = 2 ^ 24 := by rw [hT]; norm_num
        have hTpos : (0 : α) < (T : α) := by rw [hTα]; positivity
        have hpow : (2 : α) ^ 24 = 2 ^ e * 2 ^ (24 - e) := by
          rw [← pow_add]; congr 1; omega
        have h2e : (0 : α) < 2 ^ e := by positivity
        have hN : y * (T : α) = ((m * 2 ^ (24 - e) : Int) : α) := by
          rw [hq, hTα, hpow]; push_cast; field_simp; ring
        have hlt : y < ((⌊y⌋ + 1 : Int) : α) := by
          push_cast; exact Int.lt_floor_add_one y
        have hlt2 : ((m * 2 ^ (24 - e) : Int) : α) < (((⌊y⌋ + 1) * T : Int) : α) := by
          rw [← hN, Int.cast_mul]
          exact mul_lt_mul_of_pos_right hlt hTpos
        have hlt3 : m * 2 ^ (24 - e) < (⌊y⌋ + 1) * T := Int.cast_lt.mp hlt2
        have hle3 : m * 2 ^ (24 - e) + 1 ≤ (⌊y⌋ + 1) * T := hlt3
        have hle4 : ((m * 2 ^ (24 - e) + 1 : Int) : α) ≤ (((⌊y⌋ + 1) * T : Int) : α) :=
          Int.cast_le.mpr hle3
        have hle5 : y * (T : α) + 1 ≤ ((⌊y⌋ : α) + 1) * (T : α) := by
          rw [hN]
          have h5 := hle4
          rw [Int.cast_mul, Int.cast_add, Int.cast_add, Int.cast_one] at h5
          exact h5
        rw [← hTα, div_le_iff₀ hTpos]
        linarith
      · -- `y < 1/2`
        have he25 : 25 ≤ e := by omega
        have h2e : (2 : α) ^ 25 ≤ 2 ^ e := pow_le_pow_right₀ (by norm_num) he25
        have hmα : (m : α) < 2 ^ 24 := by
          have : m < 2 ^ 24 := lt_of_le_of_lt (le_abs_self m) hm
          exact_mod_cast this
        have hy12 : y < 1 / 2 := by
          rw [hq, div_lt_iff₀ (by positivity)]
          calc (m : α) < 2 ^ 24 := hmα
            _ = 1 / 2 * 2 ^ 25 := by norm_num
            _ ≤ 1 / 2 * 2 ^ e := by
              apply mul_le_mul_of_nonneg_left h2e (by norm_num)
        have hfl : ⌊y⌋ = 0 := Int.floor_eq_iff.mpr ⟨by simpa using h0, by
          simp only [Int.cast_zero, zero_add]; linarith⟩
        rw [hfl]
        simp only [Int.cast_zero, zero_add]
        linarith
  · have hneg : y < 0 := not_le.mp h0
    have h := ((trunc_spec y).2 hneg).2.1
    have : (1 : α) / 2 ^ 24 ≤ 1 := by norm_num
    linarith

/-- The cast `trunc` is less than one away from its argument. -/
theorem trunc_near (x : α) : (trunc x : α) - 1 < x ∧ x < (trunc x : α) + 1 := by
  by_cases h : 0 ≤ x
  · obtain ⟨-, h1, h2⟩ := (trunc_spec x).1 h
    exact ⟨by linarith, h2⟩
  · obtain ⟨-, h1, h2⟩ := (trunc_spec x).2 (not_le.mp h)
    exact ⟨by linarith, by linarith⟩

/-- A position whose truncated index is non-negative is above `-1`. -/
theorem neg_one_lt_of_trunc_nonneg (x : α) (h : 0 ≤ trunc x) : -1 < x := by
  by_cases h0 : 0 ≤ x
  · linarith
  · obtain ⟨h1, h2, h3⟩ := (trunc_spec x).2 (not_le.mp h0)
    have e : trunc x = 0 := le_antisymm h1 h
    rw [e] at h3
    simp only [Int.cast_zero] at h3
    linarith

/-- In a grid with a wall border, a cell that reads as not a wall is an interior cell. -/
theorem Grid.interior_of_empty (g : Grid) (hg : g.Bordered) (i j v : Int)
    (hr : g.read i j = some v) (hv : ¬ 0 < v) : g.interior i j := by
  obtain ⟨hb, hc⟩ := (Grid.read_some_iff g i j v).mp hr
  have hb2 := hb
  obtain ⟨h1, h2, h3, h4⟩ := hb2
  have hnb : ¬ (i = 0 ∨ i + 1 = g.width ∨ j = 0 ∨ j + 1 = g.height) := by
    intro hbd
    have := hg i j hb hbd
    rw [hc] at this
    exact hv this
  unfold Grid.interior
  omega

omit [FloorRing α] in
/-- In a grid with a wall border, the loop started in an interior cell stops on a wall cell
within `room + 1` iterations, without reading outside the grid. -/
theorem ddaLoop_bordered (g : Grid) (hg : g.Bordered) (r : Ray α)
    (hx : r.stepX = 1 ∨ r.stepX = -1) (hy : r.stepY = 1 ∨ r.stepY = -1) (fuel : Nat) :
    ∀ s : DDAState α, g.interior s.mapX s.mapY → room g r s < fuel →
      ∃ s1, ddaLoop g r fuel s = .ok s1 ∧ ∃ v, g.read s1.mapX s1.mapY = some v ∧ 0 < v := by
  induction fuel with
  | zero =>
    intro s hi hr
    exfalso
    obtain ⟨h1, h2, h3, h4⟩ := hi
    unfold room at hr
    split at hr <;> split at hr <;> omega
  | succ n ih =>
    intro s hi hr
    obtain ⟨h1, h2, h3, h4⟩ := hi
    have hb : g.inBounds (ddaStep r s).mapX (ddaStep r s).mapY := by
      unfold Grid.inBounds
      rcases ddaStep_cases r s with ⟨e1, e2⟩ | ⟨e1, e2⟩ <;> rw [e1, e2] <;>
        rcases hx with hx | hx <;> rcases hy with hy | hy <;> omega
    rw [ddaLoop_succ]
    have hread : g.read (ddaStep r s).mapX (ddaStep r s).mapY
        = some (g.cell (ddaStep r s).mapX (ddaStep r s).mapY) := by
      simp [Grid.read, hb]
    rw [hread]
    by_cases hv : g.cell (ddaStep r s).mapX (ddaStep r s).mapY > 0
    · simp only [hv, if_true]
      exact ⟨_, rfl, _, hread, hv⟩
    · simp only [hv, if_false]
      apply ih
      · exact Grid.interior_of_empty g hg _ _ _ hread hv
      · obtain ⟨k1, k2, k3, k4⟩ := hb
        unfold room at hr ⊢
        rcases ddaStep_cases r s with ⟨e1, e2⟩ | ⟨e1, e2⟩ <;> rw [e1, e2] at * <;>
          rcases hx with hx | hx <;> rcases hy with hy | hy <;>
          simp only [hx, hy] at * <;> norm_num at * <;> omega
/-- The built-in map has a wall border. -/
theorem map_bordered : map.Bordered := by
  intro i j hb hbd
  obtain ⟨h1, h2, h3, h4⟩ := hb
  have h2b : i < 10 := h2
  have h4b : j < 10 := h4
  have hbd2 : i = 0 ∨ i + 1 = 10 ∨ j = 0 ∨ j + 1 = 10 := hbd
  interval_cases i <;> interval_cases j <;> first | decide | (exfalso; omega)

omit [LinearOrderedField α] [FloorRing α] in
/-- From an interior cell the march has fewer than `width + height` cells of room. -/
theorem room_lt_of_interior (g : Grid) (r : Ray α) (s : DDAState α)
    (hi : g.interior s.mapX s.mapY) : room g r s < ((g.width + g.height : Nat) : Int) := by
  obtain ⟨h1, h2, h3, h4⟩ := hi
  unfold room
  push_cast
  split <;> split <;> omega

/-- A displacement of magnitude below one changes the truncated index of a position in a cell
of index at least one by at most one. -/
theorem trunc_add_range (x d : α) (h1 : 1 ≤ trunc x) (hd : |d| < 1) :
    trunc x - 1 ≤ trunc (x + d) ∧ trunc (x + d) ≤ trunc x + 1 := by
  obtain ⟨hd1, hd2⟩ := abs_lt.mp hd
  have hx0 : 0 ≤ x := by
    by_contra hneg
    have := ((trunc_spec x).2 (not_le.mp hneg)).1
    omega
  obtain ⟨-, hlo, hhi⟩ := (trunc_spec x).1 hx0
  have h1α : (1 : α) ≤ (trunc x : α) := by exact_mod_cast h1
  have hxd0 : 0 ≤ x + d := by linarith
  rw [trunc_of_nonneg hxd0]
  rw [trunc_of_nonneg hx0] at hlo hhi h1α ⊢
  constructor
  · apply Int.le_floor.mpr
    push_cast
    linarith
  · have : ⌊x + d⌋ < ⌊x⌋ + 2 := by
      apply Int.floor_lt.mpr
      push_cast
      linarith
    omega

/-- In a grid with a wall border, a movement block with displacements of magnitude below one
takes a camera in an open cell to a camera in an open cell. -/
theorem moveAxes_stays_open (g : Grid) (hg : g.Bordered) (cam : Camera α) (dx dy : α)
    (hcam : ∃ v, g.read (trunc cam.x) (trunc cam.y) = some v ∧ ¬ 0 < v)
    (hdx : |dx| < 1) (hdy : |dy| < 1) :
    ∃ c, moveAxes g cam dx dy = some c ∧ SameView c cam ∧
      ∃ v, g.read (trunc c.x) (trunc c.y) = some v ∧ ¬ 0 < v := by
  obtain ⟨v0, hv0, hnot0⟩ := hcam
  obtain ⟨i1, i2, i3, i4⟩ := Grid.interior_of_empty g hg _ _ v0 hv0 hnot0
  obtain ⟨x1, x2⟩ := trunc_add_range cam.x dx i1 hdx
  obtain ⟨y1, y2⟩ := trunc_add_range cam.y dy i3 hdy
  have bx : ∀ j, g.inBounds (trunc cam.x) j → g.inBounds (trunc (cam.x + dx)) j := by
    intro j hj
    obtain ⟨-, -, j1, j2⟩ := hj
    exact ⟨by omega, by omega, j1, j2⟩
  have hby : ∀ i, g.inBounds i (trunc cam.y) → g.inBounds i (trunc (cam.y + dy)) := by
    intro i hi
    obtain ⟨j1, j2, -, -⟩ := hi
    exact ⟨j1, j2, by omega, by omega⟩
  have b00 : g.inBounds (trunc cam.x) (trunc cam.y) := ⟨by omega, by omega, by omega, by omega⟩
  have opened : ∀ i j, g.inBounds i j → ¬ (g.inBounds i j ∧ g.cell i j > 0) →
      ∃ v, g.read i j = some v ∧ ¬ 0 < v := by
    intro i j hb hn
    exact ⟨g.cell i j, by simp [Grid.read, hb], fun hpos => hn ⟨hb, hpos⟩⟩
  have sv : ∀ c : Camera α, c.dirX = cam.dirX → c.dirY = cam.dirY → c.planeX = cam.planeX →
      c.planeY = cam.planeY → c.moveSpeed = cam.moveSpeed → c.rotSpeed = cam.rotSpeed →
      c.mouseSensitivity = cam.mouseSensitivity → c.bobbingAmplitude = cam.bobbingAmplitude →
      c.bobbingFrequency = cam.bobbingFrequency → SameView c cam :=
    fun c a1 a2 a3 a4 a5 a6 a7 a8 a9 => ⟨a1, a2, a3, a4, a5, a6, a7, a8, a9⟩
  refine ⟨_, moveAxes_eq g cam dx dy, ?_⟩
  split
  · split
    · exact ⟨SameView.refl cam, v0, hv0, hnot0⟩
    · rename_i hx hy
      exact ⟨sv _ rfl rfl rfl rfl rfl rfl rfl rfl rfl, opened _ _ (hby _ b00) hy⟩
  · split
    · rename_i hx hy
      exact ⟨sv _ rfl rfl rfl rfl rfl rfl rfl rfl rfl, opened _ _ (bx _ b00) hx⟩
    · rename_i hx hy
      exact ⟨sv _ rfl rfl rfl rfl rfl rfl rfl rfl rfl, opened _ _ (bx _ (hby _ b00)) hy⟩

/-- The same for a movement block under its key test. -/
theorem keyBlock_stays_open (g : Grid) (hg : g.Bordered) (key : Bool) (cam : Camera α)
    (dx dy : α) (hcam : ∃ v, g.read (trunc cam.x) (trunc cam.y) = some v ∧ ¬ 0 < v)
    (hdx : |dx| < 1) (hdy : |dy| < 1) :
    ∃ c, keyBlock g key cam dx dy = some c ∧ SameView c cam ∧
      ∃ v, g.read (trunc c.x) (trunc c.y) = some v ∧ ¬ 0 < v := by
  cases key
  · exact ⟨cam, rfl, SameView.refl cam, hcam⟩
  · simpa [keyBlock] using moveAxes_stays_open g hg cam dx dy hcam hdx hdy

omit [FloorRing α] in
/-- The delta of a well-formed axis is not negative. -/
theorem AxisOK.delta_nonneg {step : Int} {rayDir delta : α} (h : AxisOK step rayDir delta) :
    0 ≤ delta := by
  rcases h with ⟨-, hp, he⟩ | ⟨-, hn, he⟩
  · by_contra hc
    have : delta * rayDir < 0 := mul_neg_of_neg_of_pos (not_le.mp hc) hp
    linarith
  · by_contra hc
    have : 0 < delta * rayDir := mul_pos_of_neg_of_neg (not_le.mp hc) hn
    linarith

omit [FloorRing α] in
/-- On a well-formed axis, delta times the ray component is the step. -/
theorem AxisOK.delta_mul {step : Int} {rayDir delta : α} (h : AxisOK step rayDir delta) :
    delta * rayDir = (step : α) := by
  rcases h with ⟨hs, -, he⟩ | ⟨hs, -, he⟩ <;> rw [he, hs] <;> norm_num

omit [FloorRing α] in
/-- Moving one cell along the step moves the far face by the step. -/
theorem farFace_step (step : Int) (m : Int) :
    (farFace step (m + step) : α) = farFace step m + (step : α) := by
  unfold farFace
  push_cast
  ring

omit [FloorRing α] in
/-- A jump keeps the tracking invariant and records on which side the cell was entered. -/
theorem ddaStep_tracks (cam : Camera α) (r : Ray α)
    (hx : AxisOK r.stepX r.rayDirX r.deltaDistX) (hy : AxisOK r.stepY r.rayDirY r.deltaDistY)
    (s : DDAState α) (h : Tracks cam r s) :
    Tracks cam r (ddaStep r s) ∧ Entered r (ddaStep r s) := by
  obtain ⟨fx, fy, ix, iy⟩ := h
  have dx := hx.delta_nonneg
  have dy := hy.delta_nonneg
  by_cases hlt : s.sideDistX < s.sideDistY
  · rw [ddaStep_of_lt r s hlt]
    refine ⟨⟨?_, fy, ?_, ?_⟩, Or.inl ⟨rfl, ?_, ?_⟩⟩
    · simp only
      rw [farFace_step, ← fx, ← hx.delta_mul]
      ring
    · simp only; linarith
    · simp only; linarith
    · simp only; linarith
    · simp only; linarith
  · rw [ddaStep_of_not_lt r s hlt]
    have hle := not_lt.mp hlt
    refine ⟨⟨fx, ?_, ?_, ?_⟩, Or.inr ⟨rfl, ?_, ?_⟩⟩
    · simp only
      rw [farFace_step, ← fy, ← hy.delta_mul]
      ring
    · simp only; linarith
    · simp only; linarith
    · simp only; linarith
    · simp only; linarith

omit [FloorRing α] in
/-- The state on which the loop stops satisfies the tracking invariant and was entered on the
side it reports. -/
theorem ddaLoop_tracks (g : Grid) (cam : Camera α) (r : Ray α)
    (hx : AxisOK r.stepX r.rayDirX r.deltaDistX) (hy : AxisOK r.stepY r.rayDirY r.deltaDistY)
    (fuel : Nat) :
    ∀ s s1 : DDAState α, Tracks cam r s → ddaLoop g r fuel s = .ok s1 →
      Tracks cam r s1 ∧ Entered r s1 := by
  induction fuel with
  | zero => intro s s1 _ h; simp [ddaLoop] at h
  | succ n ih =>
    intro s s1 ht h
    rw [ddaLoop_succ] at h
    obtain ⟨ht1, he1⟩ := ddaStep_tracks cam r hx hy s ht
    cases hread : g.read (ddaStep r s).mapX (ddaStep r s).mapY with
    | none => rw [hread] at h; simp at h
    | some v =>
      rw [hread] at h
      by_cases hv : v > 0
      · simp only [hv, if_true, Except.ok.injEq] at h
        rw [← h]
        exact ⟨ht1, he1⟩
      · simp only [hv, if_false] at h
        exact ih _ _ ht1 h

omit [FloorRing α] in
/-- A nonzero ray component gives a well-formed axis. -/
theorem axisOK_of_ne_zero (rayDir : α) (h : rayDir ≠ 0) :
    AxisOK (if rayDir < 0 then -1 else 1) rayDir (deltaDist rayDir) := by
  unfold deltaDist
  rw [if_neg h]
  by_cases hneg : rayDir < 0
  · refine Or.inr ⟨by simp [hneg], hneg, ?_⟩
    have h1 : (1 : α) / rayDir < 0 := by
      rw [one_div]; exact inv_lt_zero.mpr hneg
    rw [abs_of_neg h1]
    field_simp
  · have hpos : 0 < rayDir := lt_of_le_of_ne (not_lt.mp hneg) (Ne.symm h)
    refine Or.inl ⟨by simp [hneg], hpos, ?_⟩
    have h1 : 0 < (1 : α) / rayDir := by positivity
    rw [abs_of_pos h1]
    field_simp

/-- The ray set up for a column with both components nonzero is well formed on both axes. -/
theorem setupRay_axisOK (cam : Camera α) (W x : Nat)
    (hrx : (setupRay cam W x).rayDirX ≠ 0) (hry : (setupRay cam W x).rayDirY ≠ 0) :
    AxisOK (setupRay cam W x).stepX (setupRay cam W x).rayDirX (setupRay cam W x).deltaDistX ∧
    AxisOK (setupRay cam W x).stepY (setupRay cam W x).rayDirY (setupRay cam W x).deltaDistY :=
  ⟨axisOK_of_ne_zero _ hrx, axisOK_of_ne_zero _ hry⟩

/-- With non-negative camera coordinates the loop variables start out tracking the ray. -/
theorem setupRay_tracks (cam : Camera α) (W x : Nat) (hx0 : 0 ≤ cam.x) (hy0 : 0 ≤ cam.y)
    (hrx : (setupRay cam W x).rayDirX ≠ 0) (hry : (setupRay cam W x).rayDirY ≠ 0) :
    Tracks cam (setupRay cam W x) (setupRay cam W x).start := by
  obtain ⟨ax, ay⟩ := setupRay_axisOK cam W x hrx hry
  obtain ⟨-, xlo, xhi⟩ := (trunc_spec cam.x).1 hx0
  obtain ⟨-, ylo, yhi⟩ := (trunc_spec cam.y).1 hy0
  have key : ∀ (p : α) (m : Int) (step : Int) (rd δ : α), AxisOK step rd δ →
      (m : α) ≤ p → p < (m : α) + 1 →
      p + (if rd < 0 then (p - (m : α)) * δ else ((m : α) + 1 - p) * δ) * rd = farFace step m ∧
      (if rd < 0 then (p - (m : α)) * δ else ((m : α) + 1 - p) * δ) - δ ≤ 0 ∧
      0 ≤ (if rd < 0 then (p - (m : α)) * δ else ((m : α) + 1 - p) * δ) := by
    intro p m step rd δ h hlo hhi
    have hδ := h.delta_nonneg
    rcases h with ⟨hs, hp, he⟩ | ⟨hs, hn, he⟩
    · have hnn : ¬ rd < 0 := not_lt.mpr hp.le
      simp only [hnn, if_false, farFace, hs, if_true]
      refine ⟨?_, ?_, ?_⟩
      · rw [mul_assoc, he]; ring
      · have : ((m : α) + 1 - p) * δ ≤ 1 * δ :=
          mul_le_mul_of_nonneg_right (by linarith) hδ
        linarith
      · exact mul_nonneg (by linarith) hδ
    · have hne : ¬ ((-1 : Int) = 1) := by decide
      simp only [hn, if_true, farFace, hs, hne, if_false]
      refine ⟨?_, ?_, ?_⟩
      · rw [mul_assoc, he]; ring
      · have : (p - (m : α)) * δ ≤ 1 * δ :=
          mul_le_mul_of_nonneg_right (by linarith) hδ
        linarith
      · exact mul_nonneg (by linarith) hδ
  obtain ⟨kx1, kx2, kx3⟩ := key cam.x (trunc cam.x) _ _ _ ax xlo xhi
  obtain ⟨ky1, ky2, ky3⟩ := key cam.y (trunc cam.y) _ _ _ ay ylo yhi
  refine ⟨kx1, ky1, ?_, ?_⟩
  · exact le_trans kx2 ky3
  · exact le_trans ky2 kx3


omit [FloorRing α] in
/-- On a well-formed axis, the ray parameter `sideDist - delta` is where the ray meets the
near face of the cell, and it is what the distance formula of the source computes. -/
theorem entry_parameter (p : α) (m : Int) (step : Int) (rd δ sd : α) (h : AxisOK step rd δ)
    (hf : p + sd * rd = farFace step m) :
    ((m : α) - p + (((1 - step).tdiv 2 : Int) : α)) / rd = sd - δ ∧
    p + (sd - δ) * rd = (m : α) + (((1 - step) / 2 : Int) : α) := by
  have hmul := h.delta_mul
  have hrd : rd ≠ 0 := by
    rcases h with ⟨-, hp, -⟩ | ⟨-, hn, -⟩
    · exact hp.ne'
    · exact hn.ne
  unfold farFace at hf
  rcases h with ⟨hs, -, -⟩ | ⟨hs, -, -⟩
  · subst hs
    have e1 : ((1 - 1 : Int).tdiv 2) = 0 := by decide
    have e2 : ((1 - 1 : Int) / 2) = 0 := by decide
    simp only [e1, e2, if_true, Int.cast_zero, add_zero, Int.cast_one] at hf hmul ⊢
    constructor
    · rw [div_eq_iff hrd]
      linear_combination -hf + hmul
    · linear_combination hf - hmul
  · subst hs
    have hne : ¬ ((-1 : Int) = 1) := by decide
    have e1 : ((1 - (-1) : Int).tdiv 2) = 1 := by decide
    have e2 : ((1 - (-1) : Int) / 2) = 1 := by decide
    simp only [e1, e2, hne, if_false, Int.cast_one, add_zero, Int.cast_neg] at hf hmul ⊢
    constructor
    · rw [div_eq_iff hrd]
      linear_combination -hf + hmul
    · linear_combination hf - hmul

omit [FloorRing α] in
/-- On a well-formed axis, a ray parameter between the entry and the exit parameter of a cell
gives a coordinate inside the cell. -/
theorem coordinate_in_cell (p : α) (m : Int) (step : Int) (rd δ sd t : α)
    (h : AxisOK step rd δ) (hf : p + sd * rd = farFace step m)
    (h1 : sd - δ ≤ t) (h2 : t ≤ sd) :
    (m : α) ≤ p + t * rd ∧ p + t * rd ≤ (m : α) + 1 := by
  unfold farFace at hf
  rcases h with ⟨hs, hp, he⟩ | ⟨hs, hn, he⟩
  · subst hs
    simp only [if_true] at hf
    have a1 : (sd - t) * rd ≤ δ * rd := mul_le_mul_of_nonneg_right (by linarith) hp.le
    have a2 : 0 ≤ (sd - t) * rd := mul_nonneg (by linarith) hp.le
    constructor
    · nlinarith
    · nlinarith
  · subst hs
    have hne : ¬ ((-1 : Int) = 1) := by decide
    simp only [hne, if_false, add_zero] at hf
    have a1 : δ * rd ≤ (sd - t) * rd := mul_le_mul_of_nonpos_right (by linarith) hn.le
    have a2 : (sd - t) * rd ≤ 0 := mul_nonpos_of_nonneg_of_nonpos (by linarith) hn.le
    constructor
    · nlinarith
    · nlinarith

end Lemmas


/-! ## The end-to-end scenario (C1) -/

section Scenario

variable {α : Type} [LinearOrderedField α] [FloorRing α]

/-- C1. On the 10×10 grid with a wall border and an empty interior, with the camera at
`(5, 5)`, direction `(-1, 0)`, plane `(0, 0.66)` and screen width `1`, the raycast of
column `0` finishes within 8 iterations of the DDA loop (for any amount of fuel from 8 on)
and yields perpendicular wall distance exactly `4`, on an x-side (`side = 0`), at hit cell
`mapX = 0` (with `mapY = 2`, both steps `-1`). The other camera fields are arbitrary. -/
theorem scenario_border_grid_distance (cam : Camera α) (k : Nat) :
    castColumn (borderGrid 10 10)
        { cam with x := 5, y := 5, dirX := -1, dirY := 0, planeX := 0, planeY := 66 / 100 }
        1 0 (8 + k)
      = .ok { perpWallDist := 4, side := 0, stepX := -1, stepY := -1, mapX := 0, mapY := 2 } := by
  apply castColumn_fuel_add
  norm_num [castColumn, setupRay, cameraX, deltaDist, trunc, ddaLoop, ddaStep, Grid.read,
    Grid.inBounds, borderGrid, perpWallDist, bind, Except.bind, pure, Except.pure, abs_div,
    Nat.abs_ofNat]

end Scenario

/-! ## Corridors (C2) -/

section Corridor

variable {α : Type} [LinearOrderedField α] [FloorRing α]

/-- C2. Take any grid whose dimensions fit an `int`, and any camera whose coordinates are
values a `float` can hold and whose cell is in bounds and not a wall. Let the ray of a
column be axis-aligned: `(σ, 0)` or `(0, σ)` with `σ = 1` or `σ = -1`. If the `n` cells
ahead of the camera along that axis are in bounds and not walls and the next cell is a wall,
then the raycast returns (with `n + 1` iterations of fuel, or more) a hit on exactly that
wall cell: the map index on the other axis is still the camera's, `side` is `0` for a ray
along x and `1` for a ray along y, and the distance is exactly the distance between the
camera and the near face of the wall cell (its lower edge for `σ = 1`, its upper edge for
`σ = -1`). The typing of the inputs matters because the delta of the idle axis is the finite
`1e30`: a `float` lies at least `2^-24` below the upper edge of its cell, so the idle side
distance is at least `1e30 / 2^24`, beyond the length of any corridor of an `int`-sized
grid. -/
theorem corridor_raycast (g : Grid) (cam : Camera α) (W x n k : Nat) (σ : Int)
    (hσ : σ = 1 ∨ σ = -1) (hfx : IsFloat cam.x) (hfy : IsFloat cam.y)
    (hw : g.width ≤ 2 ^ 31) (hh : g.height ≤ 2 ^ 31)
    (hcam : ∃ v, g.read (trunc cam.x) (trunc cam.y) = some v ∧ ¬ 0 < v) :
    (cam.dirX + cam.planeX * cameraX W x = (σ : α) →
      cam.dirY + cam.planeY * cameraX W x = 0 →
      (∀ j : Nat, 1 ≤ j → j ≤ n →
        ∃ v, g.read (trunc cam.x + (j : Int) * σ) (trunc cam.y) = some v ∧ ¬ 0 < v) →
      (∃ v, g.read (trunc cam.x + ((n + 1 : Nat) : Int) * σ) (trunc cam.y) = some v ∧ 0 < v) →
      castColumn g cam W x (n + 1 + k) =
        .ok { perpWallDist := (σ : α) * (((trunc cam.x + ((n + 1 : Nat) : Int) * σ
                  + (if σ = 1 then 0 else 1) : Int) : α) - cam.x),
              side := 0, stepX := σ, stepY := 1,
              mapX := trunc cam.x + ((n + 1 : Nat) : Int) * σ, mapY := trunc cam.y }) ∧
    (cam.dirX + cam.planeX * cameraX W x = 0 →
      cam.dirY + cam.planeY * cameraX W x = (σ : α) →
      (∀ j : Nat, 1 ≤ j → j ≤ n →
        ∃ v, g.read (trunc cam.x) (trunc cam.y + (j : Int) * σ) = some v ∧ ¬ 0 < v) →
      (∃ v, g.read (trunc cam.x) (trunc cam.y + ((n + 1 : Nat) : Int) * σ) = some v ∧ 0 < v) →
      castColumn g cam W x (n + 1 + k) =
        .ok { perpWallDist := (σ : α) * (((trunc cam.y + ((n + 1 : Nat) : Int) * σ
                  + (if σ = 1 then 0 else 1) : Int) : α) - cam.y),
              side := 1, stepX := 1, stepY := σ,
              mapX := trunc cam.x, mapY := trunc cam.y + ((n + 1 : Nat) : Int) * σ }) := by
  obtain ⟨v0, hv0, -⟩ := hcam
  obtain ⟨c1, c2, c3, c4⟩ := ((Grid.read_some_iff g _ _ v0).mp hv0).1
  have hbig : ((2 : α) ^ 31) < 1 / 2 ^ 24 * 10 ^ 30 := by norm_num
  have hwα : ((g.width : Int) : α) ≤ 2 ^ 31 := by exact_mod_cast hw
  have hhα : ((g.height : Int) : α) ≤ 2 ^ 31 := by exact_mod_cast hh
  have hgx := gap_of_isFloat cam.x hfx
  have hgy := gap_of_isFloat cam.y hfy
  have hgx30 : 1 / 2 ^ 24 * (10 : α) ^ 30 ≤ ((trunc cam.x : α) + 1 - cam.x) * 10 ^ 30 :=
    mul_le_mul_of_nonneg_right hgx (by positivity)
  have hgy30 : 1 / 2 ^ 24 * (10 : α) ^ 30 ≤ ((trunc cam.y : α) + 1 - cam.y) * 10 ^ 30 :=
    mul_le_mul_of_nonneg_right hgy (by positivity)
  have hx1 := neg_one_lt_of_trunc_nonneg cam.x c1
  have hy1 := neg_one_lt_of_trunc_nonneg cam.y c3
  have hx2 := (trunc_near cam.x).2
  have hy2 := (trunc_near cam.y).2
  constructor
  · intro hdx hdy hempty hwall
    apply castColumn_corridorX g cam W x n k σ hσ hdx hdy hempty hwall
    obtain ⟨v, hv, -⟩ := hwall
    obtain ⟨w1, w2, -, -⟩ := ((Grid.read_some_iff g _ _ v).mp hv).1
    have w1α : ((0 : Int) : α) ≤ ((trunc cam.x + ((n + 1 : Nat) : Int) * σ : Int) : α) :=
      Int.cast_le.mpr w1
    have w2α : ((trunc cam.x + ((n + 1 : Nat) : Int) * σ : Int) : α) + 1
        ≤ ((g.width : Int) : α) := by
      have : trunc cam.x + ((n + 1 : Nat) : Int) * σ + 1 ≤ (g.width : Int) := w2
      exact_mod_cast this
    have c2α : ((trunc cam.x : Int) : α) + 1 ≤ ((g.width : Int) : α) := by
      have : trunc cam.x + 1 ≤ (g.width : Int) := c2
      exact_mod_cast this
    refine lt_of_lt_of_le (lt_trans ?_ hbig) hgy30
    rcases hσ with rfl | rfl
    · simp only [if_true, add_zero, Int.cast_one, one_mul]
      linarith
    · have hne : ¬ ((-1 : Int) = 1) := by decide
      simp only [hne, if_false]
      push_cast at w1α ⊢
      linarith
  · intro hdx hdy hempty hwall
    apply castColumn_corridorY g cam W x n k σ hσ hdx hdy hempty hwall
    obtain ⟨v, hv, -⟩ := hwall
    obtain ⟨-, -, w1, w2⟩ := ((Grid.read_some_iff g _ _ v).mp hv).1
    have w1α : ((0 : Int) : α) ≤ ((trunc cam.y + ((n + 1 : Nat) : Int) * σ : Int) : α) :=
      Int.cast_le.mpr w1
    have w2α : ((trunc cam.y + ((n + 1 : Nat) : Int) * σ : Int) : α) + 1
        ≤ ((g.height : Int) : α) := by
      have : trunc cam.y + ((n + 1 : Nat) : Int) * σ + 1 ≤ (g.height : Int) := w2
      exact_mod_cast this
    have c4α : ((trunc cam.y : Int) : α) + 1 ≤ ((g.height : Int) : α) := by
      have : trunc cam.y + 1 ≤ (g.height : Int) := c4
      exact_mod_cast this
    refine le_of_lt (lt_of_lt_of_le (lt_trans ?_ hbig) hgx30)
    rcases hσ with rfl | rfl
    · simp only [if_true, add_zero, Int.cast_one, one_mul]
      linarith
    · have hne : ¬ ((-1 : Int) = 1) := by decide
      simp only [hne, if_false]
      push_cast at w1α ⊢
      linarith

/-- Witness for C2 on the 10×10 border grid from `(5.5, 5.5)`: a ray `(-1, 0)` crosses 4 empty
cells and hits the wall cell `(0, 5)` at distance `4.5`; a ray `(0, 1)` crosses 3 empty cells
and hits the wall cell `(5, 9)` at distance `3.5`. -/
theorem corridor_raycast_witness :
    castColumn (borderGrid 10 10) (corridorCamera (-1) 0 0 (66 / 100)) 2 1 5
      = .ok { perpWallDist := 9 / 2, side := 0, stepX := -1, stepY := 1, mapX := 0, mapY := 5 } ∧
    castColumn (borderGrid 10 10) (corridorCamera 0 1 (66 / 100) 0) 2 1 4
      = .ok { perpWallDist := 7 / 2, side := 1, stepX := 1, stepY := 1, mapX := 5, mapY := 9 } := by
  have t : trunc (11 / 2 : ℚ) = 5 := trunc_eq_of_mem (by norm_num) (by norm_num) (by norm_num)
  have hf : IsFloat (11 / 2 : ℚ) := ⟨11, 1, by decide, Or.inr (by norm_num)⟩
  have hcam : ∃ v, (borderGrid 10 10).read (trunc (11 / 2 : ℚ)) (trunc (11 / 2 : ℚ)) = some v ∧
      ¬ 0 < v := by
    rw [t]; exact ⟨0, by decide, by decide⟩
  constructor
  · have h := (corridor_raycast (borderGrid 10 10) (corridorCamera (-1) 0 0 (66 / 100)) 2 1 4 0
      (-1) (Or.inr rfl) hf hf (by norm_num [borderGrid]) (by norm_num [borderGrid]) hcam).1
      (by norm_num [corridorCamera, cameraX]) (by norm_num [corridorCamera, cameraX])
      (by
        intro j h1 h4
        simp only [corridorCamera, t]
        interval_cases j
        · exact ⟨0, by decide, by decide⟩
        · exact ⟨0, by decide, by decide⟩
        · exact ⟨0, by decide, by decide⟩
        · exact ⟨0, by decide, by decide⟩)
      (by
        simp only [corridorCamera, t]
        exact ⟨1, by decide, by decide⟩)
    rw [h]
    simp only [corridorCamera, t]
    norm_num
  · have h := (corridor_raycast (borderGrid 10 10) (corridorCamera 0 1 (66 / 100) 0) 2 1 3 0
      1 (Or.inl rfl) hf hf (by norm_num [borderGrid]) (by norm_num [borderGrid]) hcam).2
      (by norm_num [corridorCamera, cameraX]) (by norm_num [corridorCamera, cameraX])
      (by
        intro j h1 h4
        simp only [corridorCamera, t]
        interval_cases j
        · exact ⟨0, by decide, by decide⟩
        · exact ⟨0, by decide, by decide⟩
        · exact ⟨0, by decide, by decide⟩)
      (by
        simp only [corridorCamera, t]
        exact ⟨1, by decide, by decide⟩)
    rw [h]
    simp only [corridorCamera, t]
    norm_num

end Corridor

/-! ## Zero distance on the first frame (C3) -/

section FirstFrame

variable {α : Type} [LinearOrderedField α] [FloorRing α]

/-- C3 at the program's own start: on the built-in map, with the initial camera (which
stands in the empty cell `(5, 5)`) and screen width 800, the raycast of every column
`x < 394` stops in its first iteration on the wall cell `(5, 4)`, a y-side, with
perpendicular wall distance exactly `0` (both side distances start at `0` because the
camera stands on the cell corner, and the ray points to negative x and y); and for the
distance `0` the projection has no line height. -/
theorem first_frame_zero_distance (x : Nat) (hx : x < 394) (k : Nat) :
    isWall map (camera : Camera α).x (camera : Camera α).y = some false ∧
    castColumn map (camera : Camera α) screenWidth x (1 + k)
      = .ok { perpWallDist := 0, side := 1, stepX := -1, stepY := -1, mapX := 5, mapY := 4 } ∧
    lineHeight screenHeight (0 : α) = none := by
  have e5 : trunc (5 : α) = 5 := by simp [trunc]
  refine ⟨?_, ?_, by simp [lineHeight]⟩
  · simp only [camera]
    rw [isWall_eq, e5]
    decide
  · apply castColumn_fuel_add
    have r1 : map.read 5 (5 + -1) = some 1 := by decide
    have hxα : (x : α) ≤ 393 := by
      have : x ≤ 393 := by omega
      exact_mod_cast this
    have hx0 : (0 : α) ≤ (x : α) := Nat.cast_nonneg x
    have hc : cameraX screenWidth x = (x : α) / 400 - 1 := by
      simp only [cameraX, screenWidth]; push_cast; ring
    obtain ⟨rx, hrx⟩ : ∃ rx : α, rx = -1 + 1 / 10 * cameraX screenWidth x := ⟨_, rfl⟩
    obtain ⟨ry, hry⟩ : ∃ ry : α, ry = 1 / 100 + 66 / 100 * cameraX screenWidth x := ⟨_, rfl⟩
    have hX : rx < 0 := by rw [hrx, hc]; linarith
    have hY : ry < 0 := by rw [hry, hc]; linarith
    have hr : setupRay (camera : Camera α) screenWidth x =
        { rayDirX := rx, rayDirY := ry, deltaDistX := deltaDist rx, deltaDistY := deltaDist ry,
          stepX := -1, stepY := -1,
          start := { mapX := 5, mapY := 5, sideDistX := 0, sideDistY := 0, side := 0 } } := by
      simp only [setupRay, camera, ← hrx, ← hry, hX, hY, if_true, e5]
      simp
    unfold castColumn
    simp only [hr, ddaLoop, ddaStep, lt_irrefl, if_false, r1]
    simp [perpWallDist, bind, Except.bind, pure, Except.pure, hY.ne, camera]
    norm_num

/-- Witness for C3: column `0` of the first frame, in rational arithmetic. -/
theorem first_frame_zero_distance_witness :
    isWall map (camera : Camera ℚ).x (camera : Camera ℚ).y = some false ∧
    castColumn map (camera : Camera ℚ) screenWidth 0 (1 + 0)
      = .ok { perpWallDist := 0, side := 1, stepX := -1, stepY := -1, mapX := 5, mapY := 4 } ∧
    lineHeight screenHeight (0 : ℚ) = none :=
  first_frame_zero_distance 0 (by decide) 0

end FirstFrame

/-! ## The march has no bound of its own (C4) -/

section March

variable {α : Type} [LinearOrderedField α] [FloorRing α]

/-- C4 fails as stated. On the built-in map with the camera outside the grid at
`(-1.5, 5.5)`, the march of column 400 (ray `(-1, 0.01)`) reads `map[-2][5]`; on a 3×3 grid
without walls with the camera inside at `(1.5, 1.5)`, the march of the same column reads
`map[-1][1]`. Neither run reports "no hit". -/
theorem dda_reads_outside_grid :
    dda map { (camera : Camera ℚ) with x := -3 / 2, y := 11 / 2 } screenWidth 400
        (MAP_WIDTH + MAP_HEIGHT) = .error .outOfBounds ∧
    dda (openGrid 3 3) { (camera : Camera ℚ) with x := 3 / 2, y := 3 / 2 } screenWidth 400
        (3 + 3) = .error .outOfBounds := by
  have t1 : trunc (-(3 / 2) : ℚ) = -1 := by
    have hneg : ¬ (0 : ℚ) ≤ -(3 / 2) := by norm_num
    simp only [trunc, hneg, if_false]
    rw [Int.ceil_eq_iff]
    norm_num
  have t2 : trunc (11 / 2 : ℚ) = 5 :=
    trunc_eq_of_mem (by norm_num) (by norm_num) (by norm_num)
  have t3 : trunc (3 / 2 : ℚ) = 1 :=
    trunc_eq_of_mem (by norm_num) (by norm_num) (by norm_num)
  have r1 : map.read (-2) 5 = none := by decide
  have r2 : (openGrid 3 3).read 0 1 = some 0 := by decide
  have r3 : (openGrid 3 3).read (-1) 1 = none := by decide
  constructor
  · apply dda_fuel_add _ _ _ _ 1 19 _ _ (by simp)
    norm_num [dda, camera, screenWidth, setupRay, cameraX, deltaDist, ddaLoop, ddaStep, t1, t2,
      r1]
  · apply dda_fuel_add _ _ _ _ 2 4 _ _ (by simp)
    norm_num [dda, camera, screenWidth, setupRay, cameraX, deltaDist, ddaLoop, ddaStep, t3,
      r2, r3]

/-- C4, as the code has it (the loop has no iteration guard, no bounds check and no
"no hit" result). For every grid, every camera state (inside the grid or not) and every
column, the march ends within `max 1 (width + height)` iterations of the loop, and it ends
in one of two ways: it stops on a cell inside the grid that is a wall, or it reads a grid
cell outside the grid bounds. More fuel does not change this. -/
theorem dda_ends_on_wall_or_leaves_grid (g : Grid) (cam : Camera α) (W x k : Nat) :
    dda g cam W x (max 1 (g.width + g.height) + k) = .error .outOfBounds ∨
    ∃ s, dda g cam W x (max 1 (g.width + g.height) + k) = .ok s ∧
      ∃ v, g.read s.mapX s.mapY = some v ∧ 0 < v :=
  ddaLoop_ends g (setupRay cam W x) (setupRay_steps cam W x).1 (setupRay_steps cam W x).2 k _

end March

/-! ## Sliding collision (C5) -/

section Sliding

variable {α : Type} [LinearOrderedField α] [FloorRing α]

/-- C5, as the code has it. One movement block (each of the blocks for `W`, `S`, `A`, `D` is
`moveAxes` at its candidate displacement `(dx, dy)`) always returns a camera, and: the
x-candidate `isWall(x + dx, y)` is tested first, the y-candidate is tested at the x already
committed. If `isWall(x + dx, y)` and `isWall(x, y + dy)` both hold, the position is
unchanged; if `isWall(x + dx, y)` holds and `isWall(x, y + dy)` does not, `x` is unchanged
and `y` changes by `dy`; if `isWall(x + dx, y)` does not hold, `x` changes by `dx`, and `y`
is unchanged when `isWall(x + dx, y + dy)` holds and changes by `dy` when it does not. -/
theorem moveAxes_sliding (g : Grid) (cam : Camera α) (dx dy : α) :
    ∃ cam1, moveAxes g cam dx dy = some cam1 ∧
      (isWall g (cam.x + dx) cam.y = some true → isWall g cam.x (cam.y + dy) = some true →
        cam1.x = cam.x ∧ cam1.y = cam.y) ∧
      (isWall g (cam.x + dx) cam.y = some true → isWall g cam.x (cam.y + dy) = some false →
        cam1.x = cam.x ∧ cam1.y = cam.y + dy) ∧
      (isWall g (cam.x + dx) cam.y = some false →
        isWall g (cam.x + dx) (cam.y + dy) = some true →
        cam1.x = cam.x + dx ∧ cam1.y = cam.y) ∧
      (isWall g (cam.x + dx) cam.y = some false →
        isWall g (cam.x + dx) (cam.y + dy) = some false →
        cam1.x = cam.x + dx ∧ cam1.y = cam.y + dy) := by
  refine ⟨_, moveAxes_eq g cam dx dy, ?_⟩
  simp only [isWall_eq, Option.some.injEq, decide_eq_true_eq, decide_eq_false_iff_not]
  refine ⟨?_, ?_, ?_, ?_⟩ <;> intro h1 h2 <;> simp [h1, h2]

/-- C5 fails as stated. On the built-in map, from `(3.9921875, 1.9921875)` with direction
`(1, 1)`, move speed `1/64` and only `W` pressed, the candidate displacement is
`(1/64, 1/64)`: the x-candidate is open, the y-candidate `isWall(x, y + dy)` is blocked
(cell `(3, 2)` is a wall), and yet the frame moves `y` as well, to `(4.0078125, 2.0078125)`,
because the y-test is made at the new `x` (cell `(4, 2)` is empty). -/
theorem sliding_blocked_axis_moves :
    isWall map ((511 / 128 : ℚ) + 1 * (1 / 64)) (255 / 128) = some false ∧
    isWall map (511 / 128 : ℚ) (255 / 128 + 1 * (1 / 64)) = some true ∧
    (handleMovement map { w := true, s := false, a := false, d := false, leftShift := false }
        { (camera : Camera ℚ) with
          x := 511 / 128, y := 255 / 128, dirX := 1, dirY := 1, moveSpeed := 1 / 64 }).map
      (fun c => (c.x, c.y)) = some (513 / 128, 257 / 128) := by
  have t1 : trunc (513 / 128 : ℚ) = 4 :=
    trunc_eq_of_mem (by norm_num) (by norm_num) (by norm_num)
  have t2 : trunc (511 / 128 : ℚ) = 3 :=
    trunc_eq_of_mem (by norm_num) (by norm_num) (by norm_num)
  have t3 : trunc (255 / 128 : ℚ) = 1 :=
    trunc_eq_of_mem (by norm_num) (by norm_num) (by norm_num)
  have t4 : trunc (257 / 128 : ℚ) = 2 :=
    trunc_eq_of_mem (by norm_num) (by norm_num) (by norm_num)
  have w1 : isWall map (513 / 128 : ℚ) (255 / 128) = some false := by
    rw [isWall_eq, t1, t3]; decide
  have w2 : isWall map (511 / 128 : ℚ) (257 / 128) = some true := by
    rw [isWall_eq, t2, t4]; decide
  have w3 : isWall map (513 / 128 : ℚ) (257 / 128) = some false := by
    rw [isWall_eq, t1, t4]; decide
  norm_num [handleMovement, keyBlock, moveAxes, moveStep, camera, w1, w2, w3]

end Sliding

/-! ## `isWall` (C6) -/

section IsWall

variable {α : Type} [LinearOrderedField α] [FloorRing α]

/-- C6. The function `isWall` works on the truncated cell indices `(trunc x, trunc y)`; it
always returns (it never reads the grid outside its bounds); it returns `false` for every
position whose cell index is outside `[0, width) × [0, height)`; and for every position whose
cell index is in bounds it returns `true` if and only if the grid value of that cell is
greater than zero. -/
theorem isWall_spec (g : Grid) (x y : α) :
    (∃ b, isWall g x y = some b) ∧
    (¬ g.inBounds (trunc x) (trunc y) → isWall g x y = some false) ∧
    (g.inBounds (trunc x) (trunc y) →
      (isWall g x y = some true ↔ g.cell (trunc x) (trunc y) > 0) ∧
      (isWall g x y = some false ↔ ¬ g.cell (trunc x) (trunc y) > 0)) := by
  rw [isWall_eq]
  refine ⟨⟨_, rfl⟩, ?_, ?_⟩
  · intro hb
    simp [hb]
  · intro hb
    simp [hb]

/-- Witness for C6 on the built-in map: `(-3.5, 2)` truncates to the cell `(-3, 2)` outside
the grid, `(5, 4)` is a wall cell and `(5, 5)` an empty one. -/
theorem isWall_spec_witness :
    isWall map (-7 / 2 : ℚ) 2 = some false ∧
    ((isWall map (5 : ℚ) 4 = some true ↔ map.cell (trunc (5 : ℚ)) (trunc (4 : ℚ)) > 0) ∧
     (isWall map (5 : ℚ) 4 = some false ↔ ¬ map.cell (trunc (5 : ℚ)) (trunc (4 : ℚ)) > 0)) :=
  ⟨(isWall_spec map (-7 / 2 : ℚ) 2).2.1 (by
      have e : trunc (-7 / 2 : ℚ) = -3 := by
        have hneg : ¬ (0 : ℚ) ≤ -7 / 2 := by norm_num
        simp only [trunc, hneg, if_false]
        rw [Int.ceil_eq_iff]
        norm_num
      rw [e]
      simp [Grid.inBounds]),
   (isWall_spec map (5 : ℚ) 4).2.2 (by
      have e5 : trunc (5 : ℚ) = 5 := by simp [trunc]
      have e4 : trunc (4 : ℚ) = 4 := by simp [trunc]
      rw [e5, e4]
      decide)⟩

end IsWall

/-! ## The look update (C7) -/

/-- C7. For every camera state, every state of the pointer statics and every pointer
position, the look update `mouse_callback`, computed in exact real arithmetic with the real
`cos` and `sin`, preserves the squared length of the direction vector, the squared length of
the plane vector, and the dot product of the two. -/
theorem mouse_callback_preserves_lengths_and_dot (cam : Camera ℝ) (m : Mouse ℝ)
    (xpos ypos : ℝ) :
    let cam1 := (mouse_callback Real.cos Real.sin cam m xpos ypos).1
    cam1.dirX ^ 2 + cam1.dirY ^ 2 = cam.dirX ^ 2 + cam.dirY ^ 2 ∧
    cam1.planeX ^ 2 + cam1.planeY ^ 2 = cam.planeX ^ 2 + cam.planeY ^ 2 ∧
    cam1.dirX * cam1.planeX + cam1.dirY * cam1.planeY
      = cam.dirX * cam.planeX + cam.dirY * cam.planeY := by
  have h := Real.sin_sq_add_cos_sq (-((xpos - m.lastX) * cam.mouseSensitivity))
  simp only [mouse_callback]
  refine ⟨?_, ?_, ?_⟩
  · linear_combination (cam.dirX ^ 2 + cam.dirY ^ 2) * h
  · linear_combination (cam.planeX ^ 2 + cam.planeY ^ 2) * h
  · linear_combination (cam.dirX * cam.planeX + cam.dirY * cam.planeY) * h

/-! ## Perpendicularity of direction and plane (C8) -/

/-- C8 fails as stated: in the initial camera state the dot product of the direction
`(-1, 0.01)` and the plane `(0.1, 0.66)` is `-0.0934`, not zero. -/
theorem initial_camera_not_perpendicular :
    (camera : Camera ℚ).dirX * (camera : Camera ℚ).planeX
        + (camera : Camera ℚ).dirY * (camera : Camera ℚ).planeY = -467 / 5000 ∧
    (camera : Camera ℚ).dirX * (camera : Camera ℚ).planeX
        + (camera : Camera ℚ).dirY * (camera : Camera ℚ).planeY ≠ 0 := by
  norm_num [camera]

/-- One event preserves the dot product of direction and plane, and always yields a state. -/
theorem World.step_dot (g : Grid) (w : World ℝ) (e : Event ℝ) :
    ∃ w1, w.step Real.cos Real.sin g e = some w1 ∧
      w1.camera.dirX * w1.camera.planeX + w1.camera.dirY * w1.camera.planeY
        = w.camera.dirX * w.camera.planeX + w.camera.dirY * w.camera.planeY := by
  cases e with
  | cursor xpos ypos =>
    refine ⟨_, rfl, ?_⟩
    have h := Real.sin_sq_add_cos_sq (-((xpos - w.mouse.lastX) * w.camera.mouseSensitivity))
    simp only [mouse_callback]
    linear_combination
      (w.camera.dirX * w.camera.planeX + w.camera.dirY * w.camera.planeY) * h
  | frame keys =>
    obtain ⟨c, hc, hv⟩ := handleMovement_sameView g keys w.camera
    refine ⟨{ w with camera := c }, by simp [World.step, hc], ?_⟩
    obtain ⟨a1, a2, a3, a4, -⟩ := hv
    simp only [a1, a2, a3, a4]

/-- C8, as the code has it. For every grid and every sequence of look updates (cursor
callbacks) and movement steps (frames, with any key states), run in exact real arithmetic
from the program's initial state, the program reaches a state, and in it the dot product of
the direction and plane vectors is what it is initially, `-0.0934`: look updates and
movement preserve the dot product, whose initial value is not zero. -/
theorem reachable_dot_product (g : Grid) (events : List (Event ℝ)) :
    ∃ w, World.run Real.cos Real.sin g World.init events = some w ∧
      w.camera.dirX * w.camera.planeX + w.camera.dirY * w.camera.planeY = -467 / 5000 := by
  have key : ∀ (es : List (Event ℝ)) (w0 : World ℝ),
      ∃ w, World.run Real.cos Real.sin g w0 es = some w ∧
        w.camera.dirX * w.camera.planeX + w.camera.dirY * w.camera.planeY
          = w0.camera.dirX * w0.camera.planeX + w0.camera.dirY * w0.camera.planeY := by
    intro es
    induction es with
    | nil => intro w0; exact ⟨w0, rfl, rfl⟩
    | cons e es ih =>
      intro w0
      obtain ⟨w1, h1, d1⟩ := World.step_dot g w0 e
      obtain ⟨w2, h2, d2⟩ := ih w1
      exact ⟨w2, by simp [World.run, h1, h2], d2.trans d1⟩
  obtain ⟨w, hw, hd⟩ := key events World.init
  refine ⟨w, hw, hd.trans ?_⟩
  norm_num [World.init, camera]

/-! ## Projection (C9, C10) -/

section Projection

variable {α : Type} [LinearOrderedField α] [FloorRing α]

/-- C9 fails as stated, at screen height 600: the distances `1000 < 2000` both get
`lineHeight = 0` (no strict decrease), and at distance `7` the line height is `85`, whose
product with the distance is `595`, not `600`. -/
theorem lineHeight_not_hyperbolic :
    lineHeight screenHeight (1000 : ℚ) = some 0 ∧
    lineHeight screenHeight (2000 : ℚ) = some 0 ∧
    lineHeight screenHeight (7 : ℚ) = some 85 ∧
    ((85 : Int) : ℚ) * 7 ≠ ((screenHeight : Int) : ℚ) := by
  refine ⟨?_, ?_, ?_, ?_⟩
  · rw [lineHeight_of_pos _ (by decide) _ (by norm_num) (by norm_num [screenHeight])]
    simp only [Option.some.injEq, screenHeight]
    rw [Int.floor_eq_iff]; norm_num
  · rw [lineHeight_of_pos _ (by decide) _ (by norm_num) (by norm_num [screenHeight])]
    simp only [Option.some.injEq, screenHeight]
    rw [Int.floor_eq_iff]; norm_num
  · rw [lineHeight_of_pos _ (by decide) _ (by norm_num) (by norm_num [screenHeight])]
    simp only [Option.some.injEq, screenHeight]
    rw [Int.floor_eq_iff]; norm_num
  · norm_num [screenHeight]

/-- C9, as the code has it (`lineHeight` is truncated to an `int`). At a fixed screen height
`H ≥ 0`, for positive distances `d1 < d2` at which the quotient fits an `int`
(`H / d1 < 2^31`, and then `H / d2 < 2^31` too), the line heights exist and are ordered
weakly, `lineHeight(d1) ≥ lineHeight(d2)`, and for each of the two distances `d` the product
`lineHeight(d) * d` lies in `(H - d, H]`, that is
`lineHeight(d) * d ≤ H < (lineHeight(d) + 1) * d`. Nothing is said about distances so small
that the quotient does not fit. -/
theorem lineHeight_perspective (H : Int) (hH : 0 ≤ H) (d1 d2 : α) (h1 : 0 < d1)
    (h12 : d1 < d2) (hfit : (H : α) < 2 ^ 31 * d1) :
    ∃ l1 l2 : Int, lineHeight H d1 = some l1 ∧ lineHeight H d2 = some l2 ∧ l2 ≤ l1 ∧
      (l1 : α) * d1 ≤ H ∧ (H : α) < (l1 + 1) * d1 ∧
      (l2 : α) * d2 ≤ H ∧ (H : α) < (l2 + 1) * d2 := by
  have h2 : 0 < d2 := lt_trans h1 h12
  have hH0 : (0 : α) ≤ (H : α) := by exact_mod_cast hH
  have hfit2 : (H : α) < 2 ^ 31 * d2 :=
    lt_trans hfit (mul_lt_mul_of_pos_left h12 (by positivity))
  refine ⟨_, _, lineHeight_of_pos H hH d1 h1 hfit, lineHeight_of_pos H hH d2 h2 hfit2,
    ?_, ?_, ?_, ?_, ?_⟩
  · exact Int.floor_le_floor (div_le_div_of_nonneg_left hH0 h1 h12.le)
  · exact (le_div_iff₀ h1).mp (Int.floor_le _)
  · exact (div_lt_iff₀ h1).mp (Int.lt_floor_add_one _)
  · exact (le_div_iff₀ h2).mp (Int.floor_le _)
  · exact (div_lt_iff₀ h2).mp (Int.lt_floor_add_one _)

/-- Witness for C9 at `H = 600`, `d1 = 1`, `d2 = 2`. -/
theorem lineHeight_perspective_witness :
    ∃ l1 l2 : Int, lineHeight 600 (1 : ℚ) = some l1 ∧ lineHeight 600 (2 : ℚ) = some l2 ∧
      l2 ≤ l1 ∧
      (l1 : ℚ) * 1 ≤ (600 : Int) ∧ ((600 : Int) : ℚ) < (l1 + 1) * 1 ∧
      (l2 : ℚ) * 2 ≤ (600 : Int) ∧ ((600 : Int) : ℚ) < (l2 + 1) * 2 :=
  lineHeight_perspective 600 (by decide) 1 2 (by norm_num) (by norm_num) (by norm_num)

/-- C10 at a camera one `float` step from a wall. On the built-in map, the camera at
`(1 + 2^-23, 5.5)` stands in the empty cell `(1, 5)`; the raycast of column 400 of 800 stops
in its first iteration on the wall cell `(0, 5)` with distance `2^-23`. The quotient
`600 / 2^-23 = 5033164800` is above `INT_MAX`, so `int(screenHeight / perpWallDist)` has no
value. With `INT_MIN`, the value the x86 conversion delivers for an argument out of range,
`drawStart` is `1073742124` and `drawEnd` is `-1073741524`: both pass the clamps, which test
`drawStart` from below only and `drawEnd` from above only, and neither lies in
`[0, H - 1]`. -/
theorem line_height_overflow_near_wall (k : Nat) :
    isWall map thinGapCamera.x thinGapCamera.y = some false ∧
    castColumn map thinGapCamera screenWidth 400 (1 + k)
      = .ok { perpWallDist := 1 / 8388608, side := 0, stepX := -1, stepY := 1,
              mapX := 0, mapY := 5 } ∧
    ((screenHeight : Int) : ℚ) / (1 / 8388608) = ((5033164800 : Int) : ℚ) ∧
    INT_MAX < 5033164800 ∧
    lineHeight screenHeight (1 / 8388608 : ℚ) = none ∧
    drawStart screenHeight INT_MIN = 1073742124 ∧
    ¬ (drawStart screenHeight INT_MIN ≤ screenHeight - 1) ∧
    drawEnd screenHeight INT_MIN = -1073741524 ∧
    ¬ (0 ≤ drawEnd screenHeight INT_MIN) := by
  have t1 : trunc (8388609 / 8388608 : ℚ) = 1 :=
    trunc_eq_of_mem (by norm_num) (by norm_num) (by norm_num)
  have t5 : trunc (11 / 2 : ℚ) = 5 :=
    trunc_eq_of_mem (by norm_num) (by norm_num) (by norm_num)
  have r1 : map.read 0 5 = some 1 := by decide
  refine ⟨?_, ?_, by norm_num [screenHeight], by decide, ?_, by decide, by decide, by decide,
    by decide⟩
  · simp only [thinGapCamera]
    rw [isWall_eq, t1, t5]
    decide
  · apply castColumn_fuel_add
    norm_num [castColumn, thinGapCamera, camera, screenWidth, setupRay, cameraX, deltaDist,
      ddaLoop, ddaStep, perpWallDist, bind, Except.bind, pure, Except.pure, t1, t5, r1]
  · exact lineHeight_overflow _ _ (by norm_num) (by norm_num [screenHeight])

end Projection

/-! ## The look update as a rotation (C11) -/

section Look

variable {α : Type} [LinearOrderedField α] [FloorRing α]

omit [FloorRing α] in
/-- C11. For a horizontal pointer delta `dx = xpos - lastX`, `mouse_callback` turns both the
direction and the plane vector by `θ = -dx * mouseSensitivity`: each vector `(x, y)` becomes
`(x cos θ - y sin θ, x sin θ + y cos θ)`, computed from the old components. The new camera
is the same for every vertical pointer position (and every stored `lastY`), and position,
speeds, sensitivity and the bobbing fields are unchanged. -/
theorem mouse_callback_rotation (cos sin : α → α) (cam : Camera α) (m : Mouse α)
    (xpos ypos : α) :
    let θ := -(xpos - m.lastX) * cam.mouseSensitivity
    let cam1 := (mouse_callback cos sin cam m xpos ypos).1
    (cam1.dirX = cam.dirX * cos θ - cam.dirY * sin θ ∧
      cam1.dirY = cam.dirX * sin θ + cam.dirY * cos θ ∧
      cam1.planeX = cam.planeX * cos θ - cam.planeY * sin θ ∧
      cam1.planeY = cam.planeX * sin θ + cam.planeY * cos θ) ∧
    (∀ ypos2 lastY2 : α,
      (mouse_callback cos sin cam { m with lastY := lastY2 } xpos ypos2).1 = cam1) ∧
    (cam1.x = cam.x ∧ cam1.y = cam.y ∧ cam1.moveSpeed = cam.moveSpeed ∧
      cam1.rotSpeed = cam.rotSpeed ∧ cam1.mouseSensitivity = cam.mouseSensitivity ∧
      cam1.bobbingAmplitude = cam.bobbingAmplitude ∧
      cam1.bobbingFrequency = cam.bobbingFrequency ∧
      cam1.bobbingTime = cam.bobbingTime) := by
  intro θ cam1
  have hθ : θ = -((xpos - m.lastX) * cam.mouseSensitivity) := neg_mul _ _
  refine ⟨?_, ?_, ?_⟩
  · rw [hθ]
    exact ⟨rfl, rfl, rfl, rfl⟩
  · intro ypos2 lastY2
    rfl
  · exact ⟨rfl, rfl, rfl, rfl, rfl, rfl, rfl, rfl⟩

end Look

/-! ## The march inside a wall border (C12) -/

section Bordered

variable {α : Type} [LinearOrderedField α] [FloorRing α]

/-- C12. For every grid whose border cells are all walls, every camera whose cell is in
bounds and not a wall, and every column (so every ray direction, a zero component
included), the DDA loop ends within `width + height` iterations (any fuel from there on
gives the same), it ends by stopping, which it does only if no read was outside the grid,
and the cell it stops on is a wall cell inside the grid. -/
theorem dda_bordered_terminates (g : Grid) (hg : g.Bordered) (cam : Camera α) (W x k : Nat)
    (hcam : ∃ v, g.read (trunc cam.x) (trunc cam.y) = some v ∧ ¬ 0 < v) :
    ∃ s, dda g cam W x (g.width + g.height + k) = .ok s ∧
      ∃ v, g.read s.mapX s.mapY = some v ∧ 0 < v := by
  obtain ⟨v0, hv0, hnot⟩ := hcam
  have hi : g.interior (setupRay cam W x).start.mapX (setupRay cam W x).start.mapY :=
    Grid.interior_of_empty g hg _ _ v0 hv0 hnot
  have hroom := room_lt_of_interior g (setupRay cam W x) _ hi
  obtain ⟨s, hs, hw⟩ := ddaLoop_bordered g hg (setupRay cam W x) (setupRay_steps cam W x).1
    (setupRay_steps cam W x).2 (g.width + g.height) _ hi hroom
  refine ⟨s, ?_, hw⟩
  exact dda_fuel_add g cam W x (g.width + g.height) k _ hs (by simp)

/-- Witness for C12: the built-in map and the initial camera, column `0` of 800. -/
theorem dda_bordered_terminates_witness :
    ∃ s, dda map (camera : Camera ℚ) screenWidth 0 (map.width + map.height + 0) = .ok s ∧
      ∃ v, map.read s.mapX s.mapY = some v ∧ 0 < v :=
  dda_bordered_terminates map map_bordered camera screenWidth 0 0 (by
    have e5 : trunc (5 : ℚ) = 5 := by simp [trunc]
    simp only [camera, e5]
    exact ⟨0, by decide, by decide⟩)

end Bordered

/-! ## Movement inside a wall border (C13) -/

section OpenSpace

variable {α : Type} [LinearOrderedField α] [FloorRing α]

/-- C13. For every grid whose border cells are all walls, every key state, and every camera
whose cell is in bounds and not a wall and whose four candidate displacements (direction
and plane components times the frame's move step, the run modifier applied when its key is
down) have magnitude below `1`, the movement handling of the frame returns a camera whose
cell is again in bounds and not a wall. -/
theorem handleMovement_stays_open (g : Grid) (hg : g.Bordered) (keys : Keys) (cam : Camera α)
    (hcam : ∃ v, g.read (trunc cam.x) (trunc cam.y) = some v ∧ ¬ 0 < v)
    (hdirX : |cam.dirX * moveStep cam keys| < 1) (hdirY : |cam.dirY * moveStep cam keys| < 1)
    (hplaneX : |cam.planeX * moveStep cam keys| < 1)
    (hplaneY : |cam.planeY * moveStep cam keys| < 1) :
    ∃ c, handleMovement g keys cam = some c ∧
      ∃ v, g.read (trunc c.x) (trunc c.y) = some v ∧ ¬ 0 < v := by
  obtain ⟨c1, e1, v1, o1⟩ := keyBlock_stays_open g hg keys.w cam
    (cam.dirX * moveStep cam keys) (cam.dirY * moveStep cam keys) hcam hdirX hdirY
  obtain ⟨c2, e2, v2, o2⟩ := keyBlock_stays_open g hg keys.s c1
    (-(c1.dirX * moveStep cam keys)) (-(c1.dirY * moveStep cam keys)) o1
    (by rw [abs_neg, v1.1]; exact hdirX) (by rw [abs_neg, v1.2.1]; exact hdirY)
  have v21 := v2.trans v1
  obtain ⟨c3, e3, v3, o3⟩ := keyBlock_stays_open g hg keys.a c2
    (-(c2.planeX * moveStep cam keys)) (-(c2.planeY * moveStep cam keys)) o2
    (by rw [abs_neg, v21.2.2.1]; exact hplaneX) (by rw [abs_neg, v21.2.2.2.1]; exact hplaneY)
  have v31 := v3.trans v21
  obtain ⟨c4, e4, v4, o4⟩ := keyBlock_stays_open g hg keys.d c3
    (c3.planeX * moveStep cam keys) (c3.planeY * moveStep cam keys) o3
    (by rw [v31.2.2.1]; exact hplaneX) (by rw [v31.2.2.2.1]; exact hplaneY)
  refine ⟨{ c4 with bobbingTime := c4.bobbingTime +
      c4.moveSpeed * (if keys.leftShift then 2 else 1) * (1 / 100) }, ?_, o4⟩
  simp only [handleMovement, Option.bind_eq_bind, e1, Option.some_bind, e2, e3, e4,
    Option.pure_def]

/-- Witness for C13 on the built-in map: from `(4.5, 1.5)` with direction `(1, 1)`, keys
`W`, `A` and the run modifier down. -/
theorem handleMovement_stays_open_witness :
    ∃ c, handleMovement map { w := true, s := false, a := true, d := false, leftShift := true }
        strollCamera = some c ∧
      ∃ v, map.read (trunc c.x) (trunc c.y) = some v ∧ ¬ 0 < v :=
  handleMovement_stays_open map map_bordered _ strollCamera
    (by
      have t4 : trunc (9 / 2 : ℚ) = 4 :=
        trunc_eq_of_mem (by norm_num) (by norm_num) (by norm_num)
      have t1 : trunc (3 / 2 : ℚ) = 1 :=
        trunc_eq_of_mem (by norm_num) (by norm_num) (by norm_num)
      simp only [strollCamera, t4, t1]
      exact ⟨0, by decide, by decide⟩)
    (by norm_num [strollCamera, camera, moveStep, abs_lt])
    (by norm_num [strollCamera, camera, moveStep, abs_lt])
    (by norm_num [strollCamera, camera, moveStep, abs_lt])
    (by norm_num [strollCamera, camera, moveStep, abs_lt])
end OpenSpace

/-! ## The distance and the entry face (C14) -/

section EntryFace

variable {α : Type} [LinearOrderedField α] [FloorRing α]

/-- C14. For every grid, every camera with non-negative coordinates and every column whose
ray direction has both components nonzero: if the DDA stops, on the cell `(mapX, mapY)`
with side `s`, then the raycast returns a distance `t`, the side is `0` or `1`, and the point
`camera + t * rayDir` lies on the face of that cell through which the ray entered it. For
`s = 0` its x-coordinate is `mapX + (1 - stepX) / 2` and its y-coordinate lies in
`[mapY, mapY + 1]`, and `t` is the x side distance minus the x delta at loop exit; for
`s = 1` the same with the axes exchanged. -/
theorem distance_on_entry_face (g : Grid) (cam : Camera α) (W x fuel : Nat) (s : DDAState α)
    (hx0 : 0 ≤ cam.x) (hy0 : 0 ≤ cam.y)
    (hrx : (setupRay cam W x).rayDirX ≠ 0) (hry : (setupRay cam W x).rayDirY ≠ 0)
    (hstop : dda g cam W x fuel = .ok s) :
    ∃ t : α,
      castColumn g cam W x fuel =
        .ok { perpWallDist := t, side := s.side, stepX := (setupRay cam W x).stepX,
              stepY := (setupRay cam W x).stepY, mapX := s.mapX, mapY := s.mapY } ∧
      (s.side = 0 ∨ s.side = 1) ∧
      (s.side = 0 →
        cam.x + t * (setupRay cam W x).rayDirX
          = (s.mapX : α) + (((1 - (setupRay cam W x).stepX) / 2 : Int) : α) ∧
        (s.mapY : α) ≤ cam.y + t * (setupRay cam W x).rayDirY ∧
        cam.y + t * (setupRay cam W x).rayDirY ≤ (s.mapY : α) + 1 ∧
        t = s.sideDistX - (setupRay cam W x).deltaDistX) ∧
      (s.side = 1 →
        cam.y + t * (setupRay cam W x).rayDirY
          = (s.mapY : α) + (((1 - (setupRay cam W x).stepY) / 2 : Int) : α) ∧
        (s.mapX : α) ≤ cam.x + t * (setupRay cam W x).rayDirX ∧
        cam.x + t * (setupRay cam W x).rayDirX ≤ (s.mapX : α) + 1 ∧
        t = s.sideDistY - (setupRay cam W x).deltaDistY) := by
  obtain ⟨ax, ay⟩ := setupRay_axisOK cam W x hrx hry
  have h0 := setupRay_tracks cam W x hx0 hy0 hrx hry
  obtain ⟨⟨fx, fy, -, -⟩, hent⟩ :=
    ddaLoop_tracks g cam (setupRay cam W x) ax ay fuel _ s h0 hstop
  obtain ⟨px1, px2⟩ := entry_parameter cam.x s.mapX _ _ _ _ ax fx
  obtain ⟨py1, py2⟩ := entry_parameter cam.y s.mapY _ _ _ _ ay fy
  have hloop : ddaLoop g (setupRay cam W x) fuel (setupRay cam W x).start = .ok s := hstop
  rcases hent with ⟨hside, e1, e2⟩ | ⟨hside, e1, e2⟩
  · refine ⟨s.sideDistX - (setupRay cam W x).deltaDistX, ?_, Or.inl hside, ?_, ?_⟩
    · simp only [castColumn, hloop, perpWallDist, hside, if_true, if_neg hrx, px1, bind,
        Except.bind, pure, Except.pure]
    · intro _
      obtain ⟨c1, c2⟩ := coordinate_in_cell cam.y s.mapY _ _ _ _ _ ay fy e1 e2
      exact ⟨px2, c1, c2, rfl⟩
    · intro h1
      rw [hside] at h1
      exact absurd h1 (by decide)
  · have hne : ¬ s.side = 0 := by rw [hside]; decide
    have h10 : ¬ ((1 : Int) = 0) := by decide
    refine ⟨s.sideDistY - (setupRay cam W x).deltaDistY, ?_, Or.inr hside, ?_, ?_⟩
    · simp only [castColumn, hloop, perpWallDist, hside, h10, if_false, if_neg hry, py1, bind,
        Except.bind, pure, Except.pure]
    · intro h0
      exact absurd h0 hne
    · intro _
      obtain ⟨c1, c2⟩ := coordinate_in_cell cam.x s.mapX _ _ _ _ _ ax fx e1 e2
      exact ⟨py2, c1, c2, rfl⟩

/-- Witness for C14 on the 4×4 border grid: from `(1.5, 1.5)` along `(1, 0.5)` the march
stops after three iterations on the cell `(3, 2)`, entered through an x-side. -/
theorem distance_on_entry_face_witness :
    ∃ t : ℚ,
      castColumn (borderGrid 4 4) probeCamera 1 0 3 =
        .ok { perpWallDist := t, side := probeStop.side,
              stepX := (setupRay probeCamera 1 0).stepX,
              stepY := (setupRay probeCamera 1 0).stepY,
              mapX := probeStop.mapX, mapY := probeStop.mapY } ∧
      (probeStop.side = 0 ∨ probeStop.side = 1) ∧
      (probeStop.side = 0 →
        probeCamera.x + t * (setupRay probeCamera 1 0).rayDirX
          = (probeStop.mapX : ℚ) + (((1 - (setupRay probeCamera 1 0).stepX) / 2 : Int) : ℚ) ∧
        (probeStop.mapY : ℚ) ≤ probeCamera.y + t * (setupRay probeCamera 1 0).rayDirY ∧
        probeCamera.y + t * (setupRay probeCamera 1 0).rayDirY ≤ (probeStop.mapY : ℚ) + 1 ∧
        t = probeStop.sideDistX - (setupRay probeCamera 1 0).deltaDistX) ∧
      (probeStop.side = 1 →
        probeCamera.y + t * (setupRay probeCamera 1 0).rayDirY
          = (probeStop.mapY : ℚ) + (((1 - (setupRay probeCamera 1 0).stepY) / 2 : Int) : ℚ) ∧
        (probeStop.mapX : ℚ) ≤ probeCamera.x + t * (setupRay probeCamera 1 0).rayDirX ∧
        probeCamera.x + t * (setupRay probeCamera 1 0).rayDirX ≤ (probeStop.mapX : ℚ) + 1 ∧
        t = probeStop.sideDistY - (setupRay probeCamera 1 0).deltaDistY) :=
  distance_on_entry_face (borderGrid 4 4) probeCamera 1 0 3 probeStop
    (by norm_num [probeCamera]) (by norm_num [probeCamera])
    (by norm_num [setupRay, probeCamera, cameraX])
    (by norm_num [setupRay, probeCamera, cameraX])
    (by
      have t1 : trunc (3 / 2 : ℚ) = 1 :=
        trunc_eq_of_mem (by norm_num) (by norm_num) (by norm_num)
      have r1 : (borderGrid 4 4).read 2 1 = some 0 := by decide
      have r2 : (borderGrid 4 4).read 2 2 = some 0 := by decide
      have r3 : (borderGrid 4 4).read 3 2 = some 1 := by decide
      norm_num [dda, setupRay, probeCamera, probeStop, cameraX, deltaDist, ddaLoop, ddaStep,
        t1, r1, r2, r3, abs_div, Nat.abs_ofNat])

end EntryFace

end Raycaster
